import Mathlib

/-!
Verification of the StandardMessageCodec in plugin/standard-message-codec.go.

Embedding conventions:
* Go byte buffers are `List Nat` with every element `< 256`; the encoder only
  emits values `< 256`, and decode theorems that need it carry the byte bound
  as a hypothesis (`bytesOK`).
* Machine integers are `Int` with explicit two's-complement reduction modulo
  `2^w` at the points where the Go code converts or serializes them.
* `float64` values are represented by their IEEE-754 bit patterns as `Nat`
  (`< 2^64`): `binary.Write`/`binary.Read` move the 8 payload bytes verbatim,
  so the codec itself never interprets the floating-point value.
* The package-level `endian` variable is declared outside the provided codec
  file; the spec fixes "a single fixed byte order" and little-endian element
  bytes, so multi-byte scalars are serialized little-endian here.  All claims
  proved below are independent of which single fixed byte order is chosen.
* Go `error` values are modelled by `CodecError`: `typeError` for the
  encode-side `MessageTypeError`, `corruption` for decode-side errors
  (`io.EOF`, short reads, bad tags, bad bigint text), `invalidSize` for the
  negative-size encode error, and `goPanic` for Go runtime panics (negative
  slice index in `bytes.Buffer.Next`, negative length in `make`).
  `errors.Wrap` only adds a message prefix and preserves the wrapped cause,
  so `EncodeMessage`/`DecodeMessage` are modelled as returning the cause.
* The reader uses a `fuel` argument to make the recursion structural; fuel
  decreases only when the reader descends into the elements of a list or map,
  and every nested value consumes at least its tag byte, so the nesting depth
  reachable on a buffer is bounded by the buffer length.  `readValue`
  supplies `length + 1` fuel, which therefore never runs out on the inputs
  considered by the theorems below (each theorem tracks its fuel bound
  explicitly).
-/

/-- Little-endian byte serialization of a natural number into `w` bytes
(the byte layout produced by `binary.Write` for a `w`-byte unsigned value). -/
def natBytesLE : Nat → Nat → List Nat
  | 0, _ => []
  | w + 1, u => (u % 256) :: natBytesLE w (u / 256)

/-- Little-endian byte deserialization, inverse of `natBytesLE`
(the byte layout read by `binary.Read`). -/
def natFromLE : List Nat → Nat
  | [] => 0
  | b :: bs => b + 256 * natFromLE bs

/-- Reinterpret the unsigned value `u` (assumed `< 2^w`) as a `w`-bit
two's-complement signed integer, as Go does when it reads bytes into a
signed `intN` variable. -/
def toSigned (w : Nat) (u : Nat) : Int :=
  if u < 2 ^ (w - 1) then (u : Int) else (u : Int) - (2 ^ w : Nat)

/-- Two's-complement bit pattern of the signed integer `n` reduced to `w`
bits, as Go produces when converting to `intN` / serializing `n`. -/
def twosComp (w : Nat) (n : Int) : Nat :=
  (n % ((2 ^ w : Nat) : Int)).toNat

/-- Error universe of the codec.  `typeError` models `MessageTypeError`
(encode only), `corruption` models the decode-side error values,
`invalidSize` models the `"invalid size: negative"` encode error, and
`goPanic` models Go runtime panics. -/
inductive CodecError where
  | typeError (msg : String)
  | corruption (msg : String)
  | invalidSize
  | goPanic (msg : String)
deriving DecidableEq

/-- The dynamic values handled by `writeValue`/`readValueAligned`
(Go `interface{}`).  The thirteen supported variants follow the type switch
in `writeValue`; `vother` stands for a value of any other runtime category,
carrying its `%T` type descriptor (e.g. `"int16"`). -/
inductive GoValue where
  | vnil
  | vbool (b : Bool)
  | vint32 (n : Int)
  | vint64 (n : Int)
  | vbigint (n : Int)
  | vfloat64 (bits : Nat)
  | vstring (s : List Nat)
  | vbytes (bs : List Nat)
  | vint32s (xs : List Int)
  | vint64s (xs : List Int)
  | vfloat64s (ws : List Nat)
  | vlist (xs : List GoValue)
  | vmap (ps : List (GoValue × GoValue))
  | vother (desc : String)

/-- Hexadecimal digit to its lowercase ASCII code, as used by
`big.Int.Text(16)`. -/
def hexDigitChar (d : Nat) : Nat :=
  if d < 10 then 48 + d else 87 + d

/-- Little-endian base-16 digits of `n`; the fuel argument only bounds the
recursion and any `fuel ≥ n` gives the digit list. -/
def natHexAux : Nat → Nat → List Nat
  | 0, _ => []
  | fuel + 1, n => if n = 0 then [] else (n % 16) :: natHexAux fuel (n / 16)

/-- Big-endian lowercase hex digit characters of `n` (empty for `0`). -/
def natHexBE (n : Nat) : List Nat :=
  (natHexAux n n).reverse.map hexDigitChar

/-- ASCII text produced by `big.Int.Text(16)`: lowercase hex digits,
a leading minus sign for negative values, and `"0"` for zero. -/
def text16 (n : Int) : List Nat :=
  if n = 0 then [48]
  else if 0 < n then natHexBE n.toNat
  else 45 :: natHexBE (-n).toNat

/-- Value of one ASCII character as a base-16 digit, accepting the digit
characters `big.Int.SetString` accepts for base 16. -/
def hexDigitVal (c : Nat) : Option Nat :=
  if 48 ≤ c ∧ c ≤ 57 then some (c - 48)
  else if 97 ≤ c ∧ c ≤ 102 then some (c - 87)
  else if 65 ≤ c ∧ c ≤ 70 then some (c - 55)
  else none

/-- Accumulating base-16 digit parser; fails on any non-digit character. -/
def parseHexAcc (acc : Nat) : List Nat → Option Nat
  | [] => some acc
  | c :: cs =>
    match hexDigitVal c with
    | some d => parseHexAcc (16 * acc + d) cs
    | none => none

/-- Parse a nonempty unsigned base-16 digit string. -/
def parseHexDigits (cs : List Nat) : Option Nat :=
  if cs.isEmpty then none else parseHexAcc 0 cs

/-- Model of `new(big.Int).SetString(s, 16)`: an optional sign followed by a
nonempty string of base-16 digits; `none` when the text does not parse. -/
def setString16 (cs : List Nat) : Option Int :=
  match cs with
  | [] => none
  | c :: rest =>
    if c = 45 then (parseHexDigits rest).map (fun u => -(u : Int))
    else if c = 43 then (parseHexDigits rest).map (fun u => (u : Int))
    else (parseHexDigits (c :: rest)).map (fun u => (u : Int))

/-- Tag constants of the standard message codec (`standardMessageType_*`). -/
def standardMessageTypeNull : Nat := 0

/-- Tag for `true`. -/
def standardMessageTypeTrue : Nat := 1

/-- Tag for `false`. -/
def standardMessageTypeFalse : Nat := 2

/-- Tag for `int32`. -/
def standardMessageTypeInt32 : Nat := 3

/-- Tag for `int64`. -/
def standardMessageTypeInt64 : Nat := 4

/-- Tag for `*big.Int`. -/
def standardMessageTypeBigint : Nat := 5

/-- Tag for `float64`. -/
def standardMessageTypeFloat64 : Nat := 6

/-- Tag for `string`. -/
def standardMessageTypeString : Nat := 7

/-- Tag for `[]byte`. -/
def standardMessageTypeByteSlice : Nat := 8

/-- Tag for `[]int32`. -/
def standardMessageTypeInt32Slice : Nat := 9

/-- Tag for `[]int64`. -/
def standardMessageTypeInt64Slice : Nat := 10

/-- Tag for `[]float64`. -/
def standardMessageTypeFloat64Slice : Nat := 11

/-- Tag for `[]interface{}`. -/
def standardMessageTypeList : Nat := 12

/-- Tag for `map[interface{}]interface{}`. -/
def standardMessageTypeMap : Nat := 13

/-- `writeInt16`: append the 2 little-endian two's-complement bytes of
`value`.  (The Go call passes an `int16`; converting to `int16` first does
not change the emitted bytes, which only depend on `value mod 2^16`.) -/
def writeInt16 (buf : List Nat) (value : Int) : List Nat :=
  buf ++ natBytesLE 2 (twosComp 16 value)

/-- `writeInt32`: append the 4 little-endian two's-complement bytes. -/
def writeInt32 (buf : List Nat) (value : Int) : List Nat :=
  buf ++ natBytesLE 4 (twosComp 32 value)

/-- `writeInt64`: append the 8 little-endian two's-complement bytes. -/
def writeInt64 (buf : List Nat) (value : Int) : List Nat :=
  buf ++ natBytesLE 8 (twosComp 64 value)

/-- `writeFloat64`: append the 8 little-endian bytes of the IEEE bit
pattern. -/
def writeFloat64 (buf : List Nat) (bits : Nat) : List Nat :=
  buf ++ natBytesLE 8 bits

/-- `writeSize`: expanding 1/3/5-byte encoding of a size.  A negative size
is rejected; values below 254 are a single byte; values up to `0xffff` are
`254` plus an int16; larger values are `255` plus an int32. -/
def writeSize (buf : List Nat) (value : Int) : Except CodecError (List Nat) :=
  if value < 0 then .error .invalidSize
  else if value < 254 then .ok (buf ++ [twosComp 8 value])
  else if value ≤ 65535 then .ok (writeInt16 (buf ++ [254]) value)
  else .ok (writeInt32 (buf ++ [255]) value)

/-- `writeAlignment`: pad with zero bytes so the next write lands on a
multiple of `alignment`, measured from the start of the whole buffer. -/
def writeAlignment (buf : List Nat) (alignment : Nat) : List Nat :=
  if buf.length % alignment = 0 then buf
  else buf ++ List.replicate (alignment - buf.length % alignment) 0

/-- `writeBytes`: size prefix followed by the raw bytes. -/
def writeBytes (buf : List Nat) (value : List Nat) : Except CodecError (List Nat) := do
  let b ← writeSize buf (value.length : Int)
  .ok (b ++ value)

/-- `writeString`: size prefix (byte length) followed by the UTF-8 bytes;
strings are modelled as their byte sequences. -/
def writeString (buf : List Nat) (value : List Nat) : Except CodecError (List Nat) :=
  writeBytes buf value

/-- Element bytes written by `binary.Write` for a slice of `bw`-byte signed
integers: each element's little-endian two's-complement bytes, back to
back. -/
def intsToBytes (bw : Nat) (xs : List Int) : List Nat :=
  xs.foldr (fun x acc => natBytesLE bw (twosComp (8 * bw) x) ++ acc) []

/-- Element bytes written by `binary.Write` for a `[]float64`, with each
element given by its bit pattern. -/
def wordsToBytes (ws : List Nat) : List Nat :=
  ws.foldr (fun u acc => natBytesLE 8 u ++ acc) []

mutual
/-- `writeValue`: append one type-discriminator byte and the encoded value.
Each case mirrors the corresponding case of the Go type switch; the default
case produces the `MessageTypeError` with the `%T` descriptor of the
value. -/
def writeValue : List Nat → GoValue → Except CodecError (List Nat)
  | buf, .vnil => .ok (buf ++ [standardMessageTypeNull])
  | buf, .vbool b =>
    if b then .ok (buf ++ [standardMessageTypeTrue])
    else .ok (buf ++ [standardMessageTypeFalse])
  | buf, .vint32 n => .ok (writeInt32 (buf ++ [standardMessageTypeInt32]) n)
  | buf, .vint64 n => .ok (writeInt64 (buf ++ [standardMessageTypeInt64]) n)
  | buf, .vfloat64 bits =>
    .ok (writeFloat64 (writeAlignment (buf ++ [standardMessageTypeFloat64]) 8) bits)
  | buf, .vbigint n => writeString (buf ++ [standardMessageTypeBigint]) (text16 n)
  | buf, .vstring s => writeString (buf ++ [standardMessageTypeString]) s
  | buf, .vbytes bs => writeBytes (buf ++ [standardMessageTypeByteSlice]) bs
  | buf, .vint32s xs => do
    let b ← writeSize (buf ++ [standardMessageTypeInt32Slice]) (xs.length : Int)
    .ok (writeAlignment b 4 ++ intsToBytes 4 xs)
  | buf, .vint64s xs => do
    let b ← writeSize (buf ++ [standardMessageTypeInt64Slice]) (xs.length : Int)
    .ok (writeAlignment b 8 ++ intsToBytes 8 xs)
  | buf, .vfloat64s ws => do
    let b ← writeSize (buf ++ [standardMessageTypeFloat64Slice]) (ws.length : Int)
    .ok (writeAlignment b 8 ++ wordsToBytes ws)
  | buf, .vlist xs => do
    let b ← writeSize (buf ++ [standardMessageTypeList]) (xs.length : Int)
    writeValues b xs
  | buf, .vmap ps => do
    let b ← writeSize (buf ++ [standardMessageTypeMap]) (ps.length : Int)
    writePairs b ps
  | _, .vother desc =>
    .error (.typeError (("type " ++ desc) ++ " is not supported by StandardMessageCodec"))

/-- The element loop of `writeValue`'s list case. -/
def writeValues : List Nat → List GoValue → Except CodecError (List Nat)
  | buf, [] => .ok buf
  | buf, x :: xs => do
    let b ← writeValue buf x
    writeValues b xs

/-- The pair loop of `writeValue`'s map case: key then value. -/
def writePairs : List Nat → List (GoValue × GoValue) → Except CodecError (List Nat)
  | buf, [] => .ok buf
  | buf, (k, v) :: ps => do
    let b ← writeValue buf k
    let b2 ← writeValue b v
    writePairs b2 ps
end

/-- `EncodeMessage`: encode one value into a fresh buffer.  `errors.Wrap`
only decorates the message and keeps the cause, so errors are returned
unchanged. -/
def encodeMessage (message : GoValue) : Except CodecError (List Nat) :=
  writeValue [] message

/-- Read exactly `n` bytes or fail, the behavior of `binary.Read`
(`io.ReadFull`) on a fixed-width value: a short read is an error. -/
def readExact (buf : List Nat) (n : Nat) : Except CodecError (List Nat × List Nat) :=
  if buf.length < n then .error (.corruption "unexpected EOF")
  else .ok (buf.take n, buf.drop n)

/-- `readInt16`: 2 little-endian bytes as a signed 16-bit integer. -/
def readInt16 (buf : List Nat) : Except CodecError (Int × List Nat) := do
  let (bs, rest) ← readExact buf 2
  .ok (toSigned 16 (natFromLE bs), rest)

/-- `readInt32`: 4 little-endian bytes as a signed 32-bit integer. -/
def readInt32 (buf : List Nat) : Except CodecError (Int × List Nat) := do
  let (bs, rest) ← readExact buf 4
  .ok (toSigned 32 (natFromLE bs), rest)

/-- `readInt64`: 8 little-endian bytes as a signed 64-bit integer. -/
def readInt64 (buf : List Nat) : Except CodecError (Int × List Nat) := do
  let (bs, rest) ← readExact buf 8
  .ok (toSigned 64 (natFromLE bs), rest)

/-- `readFloat64`: 8 little-endian bytes as an IEEE-754 bit pattern. -/
def readFloat64 (buf : List Nat) : Except CodecError (Nat × List Nat) := do
  let (bs, rest) ← readExact buf 8
  .ok (natFromLE bs, rest)

/-- `readSize`: the discriminator byte, then 0, 2 or 4 more bytes.  Note the
2-byte case returns `int(v)` for the signed `int16` value `v`, so the result
is sign-extended (negative for wire sizes in `[32768, 65535]`). -/
def readSize (buf : List Nat) : Except CodecError (Int × List Nat) :=
  match buf with
  | [] => .error (.corruption "EOF")
  | b :: rest =>
    if b < 254 then .ok ((b : Int), rest)
    else if b = 254 then readInt16 rest
    else readInt32 rest

/-- `bytes.Buffer.Next(n)`: consume up to `n` bytes (capped at the remaining
length); a negative `n` makes the slice expression panic. -/
def bufNext (buf : List Nat) (n : Int) : Except CodecError (List Nat × List Nat) :=
  if n < 0 then .error (.goPanic "slice bounds out of range")
  else .ok (buf.take n.toNat, buf.drop n.toNat)

/-- `readBytes`: size prefix, then that many raw bytes; fewer remaining
bytes than the size declared is a corruption error. -/
def readBytes (buf : List Nat) : Except CodecError (List Nat × List Nat) := do
  let (length, b2) ← readSize buf
  let (value, b3) ← bufNext b2 length
  if (value.length : Int) = length then .ok (value, b3)
  else .error (.corruption "message corrupted: not enough bytes in buffer")

/-- `readAlignment`: skip padding so the next read lands on a multiple of
`alignment` measured from the start of the original message
(`position = originalSize - buf.Len()`; Go's `%` truncates toward zero). -/
def readAlignment (buf : List Nat) (originalSize : Nat) (alignment : Nat) : List Nat :=
  let position : Int := (originalSize : Int) - (buf.length : Int)
  let m := position.tmod (alignment : Int)
  if m ≠ 0 then buf.drop (((alignment : Int) - m).toNat) else buf

/-- Element decoding done by `binary.Read` into a slice of `count` signed
`bw`-byte integers. -/
def bytesToInts (bw : Nat) : Nat → List Nat → List Int
  | 0, _ => []
  | c + 1, bs => toSigned (8 * bw) (natFromLE (bs.take bw)) :: bytesToInts bw c (bs.drop bw)

/-- Element decoding done by `binary.Read` into a `[]float64` of bit
patterns. -/
def bytesToWords : Nat → List Nat → List Nat
  | 0, _ => []
  | c + 1, bs => natFromLE (bs.take 8) :: bytesToWords c (bs.drop 8)

/-- Nan check on an IEEE-754 bit pattern: exponent all ones and nonzero
fraction. -/
def isNaNPat (w : Nat) : Bool :=
  decide ((w / 4503599627370496) % 2048 = 2047) && decide (w % 4503599627370496 ≠ 0)

/-- Zero check on an IEEE-754 bit pattern (`+0.0` or `-0.0`). -/
def isZeroPat (w : Nat) : Bool :=
  decide (w % 9223372036854775808 = 0)

/-- Go `==` on the decoded `interface{}` values, as used by map assignment:
values of different dynamic types are unequal, comparable scalars compare by
value, `float64` compares by IEEE equality (`NaN ≠ NaN`, `-0.0 == +0.0`),
and `*big.Int` keys compare by pointer identity — two separately decoded
pointers are never equal.  Slices, lists and maps are not comparable and are
guarded by `hashable` before this is consulted. -/
def goEq : GoValue → GoValue → Bool
  | .vnil, .vnil => true
  | .vbool a, .vbool b => a == b
  | .vint32 a, .vint32 b => a == b
  | .vint64 a, .vint64 b => a == b
  | .vfloat64 a, .vfloat64 b =>
    if isNaNPat a || isNaNPat b then false
    else a == b || (isZeroPat a && isZeroPat b)
  | .vstring a, .vstring b => a == b
  | _, _ => false

/-- Whether a value may be used as a Go map key without panicking
(comparable dynamic type). -/
def hashable : GoValue → Bool
  | .vnil => true
  | .vbool _ => true
  | .vint32 _ => true
  | .vint64 _ => true
  | .vbigint _ => true
  | .vfloat64 _ => true
  | .vstring _ => true
  | _ => false

/-- Go map assignment `m[key] = value` on the association-list model: if a
stored key is `==` to `key` its value is replaced (the stored key is kept),
otherwise the pair is appended. -/
def goMapInsert : List (GoValue × GoValue) → GoValue → GoValue → List (GoValue × GoValue)
  | [], k, v => [(k, v)]
  | (k0, v0) :: rest, k, v =>
    if goEq k0 k then (k0, v) :: rest
    else (k0, v0) :: goMapInsert rest k v

/-- Go map lookup `m[k]` on the association-list model. -/
def goLookup : List (GoValue × GoValue) → GoValue → Option GoValue
  | [], _ => none
  | (k0, v0) :: rest, k => if goEq k0 k then some v0 else goLookup rest k

/-- The element loop of the reader's list case: read `n` values in
sequence. -/
def readSeq (readOne : List Nat → Except CodecError (GoValue × List Nat)) :
    Nat → List Nat → Except CodecError (List GoValue × List Nat)
  | 0, buf => .ok ([], buf)
  | n + 1, buf => do
    let (v, b2) ← readOne buf
    let (vs, b3) ← readSeq readOne n b2
    .ok (v :: vs, b3)

/-- The pair loop of the reader's map case: read key then value, then
perform the map assignment (which panics on an unhashable key). -/
def readMapSeq (readOne : List Nat → Except CodecError (GoValue × List Nat)) :
    Nat → List Nat → List (GoValue × GoValue) →
    Except CodecError (List (GoValue × GoValue) × List Nat)
  | 0, buf, m => .ok (m, buf)
  | n + 1, buf, m => do
    let (k, b2) ← readOne buf
    let (v, b3) ← readOne b2
    if hashable k then readMapSeq readOne n b3 (goMapInsert m k v)
    else .error (.goPanic "hash of unhashable type")

/-- One dispatch step of `readValueAligned`: read one tag byte and decode the
corresponding payload, using `readOne` for the recursive element reads of the
list and map cases.  This is the match body of the Go `readValueAligned`. -/
def readValueStep (readOne : List Nat → Except CodecError (GoValue × List Nat))
    (buf : List Nat) (originalSize : Nat) : Except CodecError (GoValue × List Nat) :=
    match buf with
    | [] => .error (.corruption "reading value type")
    | valueType :: rest =>
      if valueType = standardMessageTypeNull then .ok (.vnil, rest)
      else if valueType = standardMessageTypeTrue then .ok (.vbool true, rest)
      else if valueType = standardMessageTypeFalse then .ok (.vbool false, rest)
      else if valueType = standardMessageTypeInt32 then do
        let (n, b2) ← readInt32 rest
        .ok (.vint32 n, b2)
      else if valueType = standardMessageTypeInt64 then do
        let (n, b2) ← readInt64 rest
        .ok (.vint64 n, b2)
      else if valueType = standardMessageTypeFloat64 then do
        let (bits, b2) ← readFloat64 (readAlignment rest originalSize 8)
        .ok (.vfloat64 bits, b2)
      else if valueType = standardMessageTypeBigint then do
        let (bs, b2) ← readBytes rest
        match setString16 bs with
        | some n => .ok (.vbigint n, b2)
        | none => .error (.corruption "invalid binary encoding for bigint")
      else if valueType = standardMessageTypeString then do
        let (bs, b2) ← readBytes rest
        .ok (.vstring bs, b2)
      else if valueType = standardMessageTypeByteSlice then do
        let (bs, b2) ← readBytes rest
        .ok (.vbytes bs, b2)
      else if valueType = standardMessageTypeInt32Slice then do
        let (length, b2) ← readSize rest
        let b3 := readAlignment b2 originalSize 4
        if length < 0 then .error (.goPanic "makeslice: len out of range")
        else do
          let (bs, b4) ← readExact b3 (4 * length.toNat)
          .ok (.vint32s (bytesToInts 4 length.toNat bs), b4)
      else if valueType = standardMessageTypeInt64Slice then do
        let (length, b2) ← readSize rest
        let b3 := readAlignment b2 originalSize 8
        if length < 0 then .error (.goPanic "makeslice: len out of range")
        else do
          let (bs, b4) ← readExact b3 (8 * length.toNat)
          .ok (.vint64s (bytesToInts 8 length.toNat bs), b4)
      else if valueType = standardMessageTypeFloat64Slice then do
        let (length, b2) ← readSize rest
        let b3 := readAlignment b2 originalSize 8
        if length < 0 then .error (.goPanic "makeslice: len out of range")
        else do
          let (bs, b4) ← readExact b3 (8 * length.toNat)
          .ok (.vfloat64s (bytesToWords length.toNat bs), b4)
      else if valueType = standardMessageTypeList then do
        let (length, b2) ← readSize rest
        if length < 0 then .error (.goPanic "makeslice: cap out of range")
        else do
          let (vs, b3) ← readSeq readOne length.toNat b2
          .ok (.vlist vs, b3)
      else if valueType = standardMessageTypeMap then do
        let (length, b2) ← readSize rest
        let (m, b3) ← readMapSeq readOne length.toNat b2 []
        .ok (.vmap m, b3)
      else .error (.corruption "invalid message value type")

/-- `readValueAligned`: read one value.  `originalSize` is the total length
captured at the top of the decode call and threaded unchanged through every
recursive call; `fuel` (see the file comment) only bounds the recursion
depth. -/
def readValueAligned : Nat → List Nat → Nat → Except CodecError (GoValue × List Nat)
  | 0, _, _ => .error (.corruption "out of fuel")
  | fuel + 1, buf, originalSize =>
    readValueStep (fun b => readValueAligned fuel b originalSize) buf originalSize

/-- `readValue`: capture the original buffer length once and read one
value. -/
def readValue (buf : List Nat) : Except CodecError (GoValue × List Nat) :=
  readValueAligned (buf.length + 1) buf buf.length

/-- Result handling of `DecodeMessage`: return the message of a successful
read (discarding trailing bytes), propagate the error otherwise
(`errors.Wrap` preserves the cause). -/
def decodeResult : Except CodecError (GoValue × List Nat) → Except CodecError GoValue
  | .ok (message, _) => .ok message
  | .error e => .error e

/-- `DecodeMessage`: read one value from the front of the data; trailing
bytes are ignored. -/
def decodeMessage (data : List Nat) : Except CodecError GoValue :=
  decodeResult (readValue data)

/-- Sizes whose wire encoding survives `readSize`'s signed 16-bit read:
below `2^15`, or encoded through the int32 branch and below `2^31`. -/
def goodSize (n : Nat) : Bool :=
  decide (n < 32768) || (decide (65536 ≤ n) && decide (n < 2147483648))

/-- All bytes of a buffer are in range (the `[]byte` typing invariant). -/
def bytesOK (buf : List Nat) : Bool :=
  buf.all (fun b => decide (b < 256))

/-- Keys of an association list are pairwise distinct for Go equality
(each key is `goEq`-unequal to every later key). -/
def keysDistinct : List (GoValue × GoValue) → Bool
  | [] => true
  | (k, _) :: ps => ps.all (fun q => !(goEq k q.1)) && keysDistinct ps

mutual
/-- Encodable well-formedness: the value is one of the thirteen supported
variants, its machine integers are in range, its bytes are in byte range,
its float bit patterns fit 64 bits, map keys are hashable and pairwise
Go-unequal, and every size the encoder will emit is a `goodSize`. -/
def encOK : GoValue → Bool
  | .vnil => true
  | .vbool _ => true
  | .vint32 n => decide (-2147483648 ≤ n ∧ n < 2147483648)
  | .vint64 n => decide (-9223372036854775808 ≤ n ∧ n < 9223372036854775808)
  | .vbigint n => goodSize (text16 n).length
  | .vfloat64 bits => decide (bits < 18446744073709551616)
  | .vstring s => bytesOK s && goodSize s.length
  | .vbytes bs => bytesOK bs && goodSize bs.length
  | .vint32s xs =>
    xs.all (fun x => decide (-2147483648 ≤ x ∧ x < 2147483648)) && goodSize xs.length
  | .vint64s xs =>
    xs.all (fun x => decide (-9223372036854775808 ≤ x ∧ x < 9223372036854775808)) &&
      goodSize xs.length
  | .vfloat64s ws => ws.all (fun w => decide (w < 18446744073709551616)) && goodSize ws.length
  | .vlist xs => goodSize xs.length && encOKList xs
  | .vmap ps =>
    goodSize ps.length && keysDistinct ps && ps.all (fun p => hashable p.1) && encOKPairs ps
  | .vother _ => false

/-- `encOK` on every element of a list. -/
def encOKList : List GoValue → Bool
  | [] => true
  | x :: xs => encOK x && encOKList xs

/-- `encOK` on every key and value of an association list. -/
def encOKPairs : List (GoValue × GoValue) → Bool
  | [] => true
  | (k, v) :: ps => encOK k && encOK v && encOKPairs ps
end

mutual
/-- Well-formedness of decoded values: one of the thirteen supported
variants (never `vother`), machine integers in range, bytes in byte range,
float bit patterns below `2^64`, recursively at every depth. -/
def decodedWF : GoValue → Bool
  | .vnil => true
  | .vbool _ => true
  | .vint32 n => decide (-2147483648 ≤ n ∧ n < 2147483648)
  | .vint64 n => decide (-9223372036854775808 ≤ n ∧ n < 9223372036854775808)
  | .vbigint _ => true
  | .vfloat64 bits => decide (bits < 18446744073709551616)
  | .vstring s => bytesOK s
  | .vbytes bs => bytesOK bs
  | .vint32s xs => xs.all (fun x => decide (-2147483648 ≤ x ∧ x < 2147483648))
  | .vint64s xs => xs.all (fun x => decide (-9223372036854775808 ≤ x ∧ x < 9223372036854775808))
  | .vfloat64s ws => ws.all (fun w => decide (w < 18446744073709551616))
  | .vlist xs => decodedWFList xs
  | .vmap ps => decodedWFPairs ps
  | .vother _ => false

/-- `decodedWF` on every element of a list. -/
def decodedWFList : List GoValue → Bool
  | [] => true
  | x :: xs => decodedWF x && decodedWFList xs

/-- `decodedWF` on every key and value of an association list. -/
def decodedWFPairs : List (GoValue × GoValue) → Bool
  | [] => true
  | (k, v) :: ps => decodedWF k && decodedWF v && decodedWFPairs ps
end

/-- A float nested under `d` list levels, preceded in its innermost list by
`k` nulls, so that its payload sits after an arbitrary number of 1-byte tags
and needs root-relative alignment padding. -/
def nestFloat : Nat → Nat → Nat → GoValue
  | 0, k, bits => .vlist (List.replicate k .vnil ++ [.vfloat64 bits])
  | d + 1, k, bits => .vlist [nestFloat d k bits]

/-- The bytes `writeSize` appends for a size `n` (derived form of
`writeSize` used to state lemmas). -/
def sizeBytes (n : Nat) : List Nat :=
  if n < 254 then [n]
  else if n ≤ 65535 then 254 :: natBytesLE 2 n
  else 255 :: natBytesLE 4 n

/-- The padding bytes `writeAlignment` appends at buffer length `len`. -/
def padBytes (len alignment : Nat) : List Nat :=
  if len % alignment = 0 then []
  else List.replicate (alignment - len % alignment) 0

theorem natBytesLE_length (w u : Nat) : (natBytesLE w u).length = w := by
  induction w generalizing u with
  | zero => rfl
  | succ w ih => simp [natBytesLE, ih]

theorem natBytesLE_lt (w u : Nat) : ∀ b ∈ natBytesLE w u, b < 256 := by
  induction w generalizing u with
  | zero => simp [natBytesLE]
  | succ w ih =>
    intro b hb
    simp only [natBytesLE, List.mem_cons] at hb
    rcases hb with h | h
    · omega
    · exact ih _ _ h

theorem natFromLE_natBytesLE (w u : Nat) : natFromLE (natBytesLE w u) = u % 256 ^ w := by
  induction w generalizing u with
  | zero => simp [natBytesLE, natFromLE, Nat.mod_one]
  | succ w ih =>
    simp only [natBytesLE, natFromLE, ih]
    rw [pow_succ']
    exact Nat.mod_mul.symm

theorem natFromLE_lt (bs : List Nat) (h : ∀ b ∈ bs, b < 256) :
    natFromLE bs < 256 ^ bs.length := by
  induction bs with
  | nil => simp [natFromLE]
  | cons b bs ih =>
    have hb : b < 256 := h b (by simp)
    have := ih (fun x hx => h x (by simp [hx]))
    simp only [natFromLE, List.length_cons]
    calc b + 256 * natFromLE bs < 256 + 256 * natFromLE bs := by omega
      _ ≤ 256 * 256 ^ bs.length := by omega
      _ = 256 ^ (bs.length + 1) := (pow_succ' 256 bs.length).symm

theorem twosComp_lt (w : Nat) (n : Int) : twosComp w n < 2 ^ w := by
  have hp : (0 : Int) < ((2 ^ w : Nat) : Int) := by positivity
  have := Int.emod_lt_of_pos n hp
  have h0 := Int.emod_nonneg n (by omega : ((2 ^ w : Nat) : Int) ≠ 0)
  simp only [twosComp]
  omega

theorem toSigned_of_lt (w u : Nat) (h : u < 2 ^ (w - 1)) : toSigned w u = (u : Int) := by
  simp [toSigned, h]

theorem toSigned_twosComp_16 (n : Int) (h1 : -32768 ≤ n) (h2 : n < 32768) :
    toSigned 16 (twosComp 16 n) = n := by
  have e1 : (2 : Nat) ^ (16 - 1) = 32768 := by norm_num
  have e2 : ((2 : Nat) ^ 16 : Nat) = 65536 := by norm_num
  simp only [toSigned, twosComp, e1, e2]
  split_ifs <;> omega

theorem toSigned_twosComp_32 (n : Int) (h1 : -2147483648 ≤ n) (h2 : n < 2147483648) :
    toSigned 32 (twosComp 32 n) = n := by
  have e1 : (2 : Nat) ^ (32 - 1) = 2147483648 := by norm_num
  have e2 : ((2 : Nat) ^ 32 : Nat) = 4294967296 := by norm_num
  simp only [toSigned, twosComp, e1, e2]
  split_ifs <;> omega

theorem toSigned_twosComp_64 (n : Int)
    (h1 : -9223372036854775808 ≤ n) (h2 : n < 9223372036854775808) :
    toSigned 64 (twosComp 64 n) = n := by
  have e1 : (2 : Nat) ^ (64 - 1) = 9223372036854775808 := by norm_num
  have e2 : ((2 : Nat) ^ 64 : Nat) = 18446744073709551616 := by norm_num
  simp only [toSigned, twosComp, e1, e2]
  split_ifs <;> omega

theorem readExact_append (xs rest : List Nat) :
    readExact (xs ++ rest) xs.length = .ok (xs, rest) := by
  have hlen : ¬ (xs ++ rest).length < xs.length := by
    simp [List.length_append]
  simp [readExact, hlen, List.take_left, List.drop_left]

theorem readExact_of_len (xs rest : List Nat) (n : Nat) (h : xs.length = n) :
    readExact (xs ++ rest) n = .ok (xs, rest) := h ▸ readExact_append xs rest

theorem readInt16_twosComp (n : Int) (h1 : -32768 ≤ n) (h2 : n < 32768) (rest : List Nat) :
    readInt16 (natBytesLE 2 (twosComp 16 n) ++ rest) = .ok (n, rest) := by
  have h4 := readExact_of_len (natBytesLE 2 (twosComp 16 n)) rest 2 (natBytesLE_length 2 _)
  have hlt : twosComp 16 n < 65536 := by
    have := twosComp_lt 16 n
    norm_num at this
    omega
  simp [readInt16, h4, bind, Except.bind, natFromLE_natBytesLE, Nat.mod_eq_of_lt hlt,
    toSigned_twosComp_16 n h1 h2]

theorem readInt32_twosComp (n : Int) (h1 : -2147483648 ≤ n) (h2 : n < 2147483648)
    (rest : List Nat) :
    readInt32 (natBytesLE 4 (twosComp 32 n) ++ rest) = .ok (n, rest) := by
  have h4 := readExact_of_len (natBytesLE 4 (twosComp 32 n)) rest 4 (natBytesLE_length 4 _)
  have hlt : twosComp 32 n < 4294967296 := by
    have := twosComp_lt 32 n
    norm_num at this
    omega
  simp [readInt32, h4, bind, Except.bind, natFromLE_natBytesLE, Nat.mod_eq_of_lt hlt,
    toSigned_twosComp_32 n h1 h2]

theorem readInt64_twosComp (n : Int)
    (h1 : -9223372036854775808 ≤ n) (h2 : n < 9223372036854775808) (rest : List Nat) :
    readInt64 (natBytesLE 8 (twosComp 64 n) ++ rest) = .ok (n, rest) := by
  have h4 := readExact_of_len (natBytesLE 8 (twosComp 64 n)) rest 8 (natBytesLE_length 8 _)
  have hlt : twosComp 64 n < 18446744073709551616 := by
    have := twosComp_lt 64 n
    norm_num at this
    omega
  simp [readInt64, h4, bind, Except.bind, natFromLE_natBytesLE, Nat.mod_eq_of_lt hlt,
    toSigned_twosComp_64 n h1 h2]

theorem readFloat64_bytes (u : Nat) (h : u < 18446744073709551616) (rest : List Nat) :
    readFloat64 (natBytesLE 8 u ++ rest) = .ok (u, rest) := by
  have h8 := readExact_of_len (natBytesLE 8 u) rest 8 (natBytesLE_length 8 _)
  have hlt : u < 18446744073709551616 := h
  simp [readFloat64, h8, bind, Except.bind, natFromLE_natBytesLE, Nat.mod_eq_of_lt hlt]

theorem natCast_tmod (L a : Nat) : ((L : Int)).tmod (a : Int) = ((L % a : Nat) : Int) := by
  rw [Int.tmod_eq_emod (by positivity) (by positivity)]
  push_cast
  ring_nf

theorem writeAlignment_eq (buf : List Nat) (a : Nat) :
    writeAlignment buf a = buf ++ padBytes buf.length a := by
  simp only [writeAlignment, padBytes]
  split_ifs <;> simp

theorem writeSize_nat (buf : List Nat) (n : Nat) (h : n < 4294967296) :
    writeSize buf (n : Int) = .ok (buf ++ sizeBytes n) := by
  have h0 : ¬ ((n : Int) < 0) := by omega
  by_cases hb : n < 254
  · have hb' : (n : Int) < 254 := by omega
    have htc : twosComp 8 (n : Int) = n := by
      simp only [twosComp]
      norm_num
      omega
    simp [writeSize, sizeBytes, h0, hb, hb', htc]
  · have hb' : ¬ ((n : Int) < 254) := by omega
    by_cases hc : n ≤ 65535
    · have hc' : (n : Int) ≤ 65535 := by omega
      have htc : twosComp 16 (n : Int) = n := by
        simp only [twosComp]
        norm_num
        omega
      simp [writeSize, sizeBytes, writeInt16, h0, hb, hb', hc, hc', htc]
    · have hc' : ¬ ((n : Int) ≤ 65535) := by omega
      have htc : twosComp 32 (n : Int) = n := by
        simp only [twosComp]
        norm_num
        omega
      simp [writeSize, sizeBytes, writeInt32, h0, hb, hb', hc, hc', htc]

theorem goodSize_cases (n : Nat) (h : goodSize n = true) :
    n < 32768 ∨ (65536 ≤ n ∧ n < 2147483648) := by
  simp [goodSize] at h
  omega

theorem readSize_sizeBytes (n : Nat) (h : goodSize n = true) (rest : List Nat) :
    readSize (sizeBytes n ++ rest) = .ok ((n : Int), rest) := by
  have hg := goodSize_cases n h
  by_cases hb : n < 254
  · simp [sizeBytes, hb, readSize]
  · by_cases hc : n ≤ 65535
    · have hn : n < 32768 := by omega
      have e1 : twosComp 16 (n : Int) = n := by
        simp only [twosComp]
        norm_num
        omega
      have hri := readInt16_twosComp (n : Int) (by omega) (by omega) rest
      rw [e1] at hri
      simp [sizeBytes, hb, hc, readSize, hri]
    · have hn : 65536 ≤ n ∧ n < 2147483648 := by omega
      have e1 : twosComp 32 (n : Int) = n := by
        simp only [twosComp]
        norm_num
        omega
      have hri := readInt32_twosComp (n : Int) (by omega) (by omega) rest
      rw [e1] at hri
      simp [sizeBytes, hb, hc, readSize, hri]

theorem readAlignment_eval (buf : List Nat) (orig a L : Nat) (ha : 0 < a)
    (hL : (orig : Int) - ((buf.length : Nat) : Int) = (L : Int)) :
    readAlignment buf orig a = if L % a = 0 then buf else buf.drop (a - L % a) := by
  simp only [readAlignment, hL, natCast_tmod]
  by_cases hm : L % a = 0
  · simp [hm]
  · have h1 : ((L % a : Nat) : Int) ≠ 0 := by
      simp only [ne_eq, Nat.cast_eq_zero]
      exact hm
    have hlt : L % a < a := Nat.mod_lt _ ha
    have h2 : (((a : Int) - ((L % a : Nat) : Int)).toNat) = a - L % a := by omega
    rw [if_pos h1, if_neg hm, h2]

theorem readAlignment_pad (L a : Nat) (ha : 0 < a) (rest : List Nat) (orig : Nat)
    (horig : orig = L + (padBytes L a).length + rest.length) :
    readAlignment (padBytes L a ++ rest) orig a = rest := by
  have hL : (orig : Int) - (((padBytes L a ++ rest).length : Nat) : Int) = (L : Int) := by
    subst horig
    push_cast [List.length_append]
    ring
  rw [readAlignment_eval _ _ _ L ha hL]
  by_cases hm : L % a = 0
  · simp [padBytes, hm]
  · have hpad : padBytes L a = List.replicate (a - L % a) 0 := by simp [padBytes, hm]
    rw [if_neg hm, hpad, List.drop_left']
    simp

theorem natHexAux_lt16 (fuel n : Nat) : ∀ d ∈ natHexAux fuel n, d < 16 := by
  induction fuel generalizing n with
  | zero => simp [natHexAux]
  | succ fuel ih =>
    intro d hd
    by_cases h : n = 0
    · simp [natHexAux, h] at hd
    · simp only [natHexAux, if_neg h, List.mem_cons] at hd
      rcases hd with h1 | h1
      · omega
      · exact ih _ _ h1

theorem ofDigits16_natHexAux (fuel n : Nat) (h : n ≤ fuel) :
    Nat.ofDigits 16 (natHexAux fuel n) = n := by
  induction fuel generalizing n with
  | zero =>
    simp [natHexAux]
    omega
  | succ fuel ih =>
    by_cases h0 : n = 0
    · simp [natHexAux, h0]
    · have hdiv : n / 16 ≤ fuel := by omega
      simp [natHexAux, h0, Nat.ofDigits_cons, ih _ hdiv]
      omega

theorem natHexAux_ne_nil (fuel n : Nat) (h1 : 1 ≤ n) (h2 : n ≤ fuel) :
    natHexAux fuel n ≠ [] := by
  cases fuel with
  | zero => omega
  | succ fuel =>
    simp [natHexAux]
    omega

theorem hexDigitVal_hexDigitChar (d : Nat) (h : d < 16) :
    hexDigitVal (hexDigitChar d) = some d := by
  simp only [hexDigitChar, hexDigitVal]
  split_ifs with h1 h2 h3 h4 h5 h6 <;> try omega
  all_goals congr 1
  all_goals omega

theorem parseHexAcc_mapChars (L : List Nat) (hd : ∀ d ∈ L, d < 16) (acc : Nat) :
    parseHexAcc acc (L.map hexDigitChar) = some (L.foldl (fun a d => 16 * a + d) acc) := by
  induction L generalizing acc with
  | nil => simp [parseHexAcc]
  | cons d L ih =>
    have h1 : d < 16 := hd d (by simp)
    simp [parseHexAcc, hexDigitVal_hexDigitChar d h1, ih (fun x hx => hd x (by simp [hx]))]

theorem foldl_reverse_ofDigits (L : List Nat) (acc : Nat) :
    (L.reverse).foldl (fun a d => 16 * a + d) acc = acc * 16 ^ L.length + Nat.ofDigits 16 L := by
  induction L generalizing acc with
  | nil => simp
  | cons d L ih =>
    simp only [List.reverse_cons, List.foldl_append, List.foldl_cons, List.foldl_nil, ih,
      Nat.ofDigits_cons, List.length_cons, pow_succ]
    ring

theorem natHexBE_mem_ge (n : Nat) : ∀ c ∈ natHexBE n, 48 ≤ c := by
  intro c hc
  simp only [natHexBE, List.mem_map] at hc
  obtain ⟨d, _, rfl⟩ := hc
  simp only [hexDigitChar]
  split_ifs <;> omega

theorem natHexBE_ne_nil (n : Nat) (h : 1 ≤ n) : natHexBE n ≠ [] := by
  simp only [natHexBE, ne_eq, List.map_eq_nil_iff, List.reverse_eq_nil_iff]
  exact natHexAux_ne_nil n n h le_rfl

theorem parseHexDigits_natHexBE (n : Nat) (h : 1 ≤ n) :
    parseHexDigits (natHexBE n) = some n := by
  have hne := natHexBE_ne_nil n h
  have hrev : ∀ d ∈ (natHexAux n n).reverse, d < 16 := by
    intro d hd
    exact natHexAux_lt16 n n d (List.mem_reverse.mp hd)
  have hmap := parseHexAcc_mapChars (natHexAux n n).reverse hrev 0
  have hfold := foldl_reverse_ofDigits (natHexAux n n) 0
  have hval := ofDigits16_natHexAux n n le_rfl
  have hempty : (natHexBE n).isEmpty = false := by
    simp [List.isEmpty_iff, hne]
  simp only [parseHexDigits, hempty, Bool.false_eq_true, if_false]
  simp only [natHexBE] at hmap ⊢
  rw [hmap, hfold, hval]
  simp

theorem setString16_text16 (n : Int) : setString16 (text16 n) = some n := by
  by_cases h0 : n = 0
  · subst h0
    rfl
  · by_cases hpos : 0 < n
    · have h1 : 1 ≤ n.toNat := by omega
      have hp := parseHexDigits_natHexBE n.toNat h1
      obtain ⟨c, cs, hcs⟩ : ∃ c cs, natHexBE n.toNat = c :: cs := by
        cases hc : natHexBE n.toNat with
        | nil => exact absurd hc (natHexBE_ne_nil _ h1)
        | cons c cs => exact ⟨c, cs, rfl⟩
      have hc48 : 48 ≤ c := natHexBE_mem_ge n.toNat c (by rw [hcs]; simp)
      rw [hcs] at hp
      simp only [text16, h0, hpos, if_false, if_true, hcs, setString16]
      rw [if_neg (by omega : ¬ c = 45), if_neg (by omega : ¬ c = 43), hp]
      simp
      omega
    · have hneg : 1 ≤ (-n).toNat := by omega
      have hp := parseHexDigits_natHexBE (-n).toNat hneg
      simp only [text16, h0, hpos, if_false, setString16, if_true, hp]
      simp
      omega

theorem goMapInsert_fresh (m : List (GoValue × GoValue)) (k v : GoValue)
    (h : ∀ q ∈ m, goEq q.1 k = false) :
    goMapInsert m k v = m ++ [(k, v)] := by
  induction m with
  | nil => rfl
  | cons q m ih =>
    obtain ⟨k0, v0⟩ := q
    have h0 : goEq k0 k = false := h (k0, v0) (by simp)
    simp [goMapInsert, h0, ih (fun q hq => h q (by simp [hq]))]

theorem intsToBytes_cons (bw : Nat) (x : Int) (xs : List Int) :
    intsToBytes bw (x :: xs) = natBytesLE bw (twosComp (8 * bw) x) ++ intsToBytes bw xs := by
  simp [intsToBytes]

theorem wordsToBytes_cons (w : Nat) (ws : List Nat) :
    wordsToBytes (w :: ws) = natBytesLE 8 w ++ wordsToBytes ws := by
  simp [wordsToBytes]

theorem intsToBytes_length (bw : Nat) (xs : List Int) :
    (intsToBytes bw xs).length = bw * xs.length := by
  induction xs with
  | nil => simp [intsToBytes]
  | cons x xs ih =>
    rw [intsToBytes_cons]
    simp [natBytesLE_length, ih]
    ring

theorem wordsToBytes_length (ws : List Nat) :
    (wordsToBytes ws).length = 8 * ws.length := by
  induction ws with
  | nil => simp [wordsToBytes]
  | cons w ws ih =>
    rw [wordsToBytes_cons]
    simp [natBytesLE_length, ih]
    ring

theorem bytesToInts_int32 (xs : List Int)
    (h : ∀ x ∈ xs, -2147483648 ≤ x ∧ x < 2147483648) (extra : List Nat) :
    bytesToInts 4 xs.length (intsToBytes 4 xs ++ extra) = xs := by
  induction xs with
  | nil => simp [bytesToInts]
  | cons x xs ih =>
    have hx := h x (by simp)
    have hlen := natBytesLE_length 4 (twosComp (8 * 4) x)
    have htake : ((natBytesLE 4 (twosComp (8 * 4) x) ++ (intsToBytes 4 xs ++ extra)).take 4) =
        natBytesLE 4 (twosComp (8 * 4) x) := List.take_left' hlen
    have hdrop : ((natBytesLE 4 (twosComp (8 * 4) x) ++ (intsToBytes 4 xs ++ extra)).drop 4) =
        intsToBytes 4 xs ++ extra := List.drop_left' hlen
    have hlt : twosComp 32 x < 4294967296 := by
      have := twosComp_lt 32 x
      norm_num at this
      omega
    have hm : twosComp 32 x % 256 ^ 4 = twosComp 32 x := Nat.mod_eq_of_lt (by norm_num; omega)
    simp only [intsToBytes_cons, List.length_cons, bytesToInts, List.append_assoc,
      htake, hdrop]
    norm_num
    rw [natFromLE_natBytesLE, hm, toSigned_twosComp_32 x hx.1 hx.2]
    exact ⟨rfl, ih (fun y hy => h y (by simp [hy]))⟩

theorem bytesToInts_int64 (xs : List Int)
    (h : ∀ x ∈ xs, -9223372036854775808 ≤ x ∧ x < 9223372036854775808) (extra : List Nat) :
    bytesToInts 8 xs.length (intsToBytes 8 xs ++ extra) = xs := by
  induction xs with
  | nil => simp [bytesToInts]
  | cons x xs ih =>
    have hx := h x (by simp)
    have hlen := natBytesLE_length 8 (twosComp (8 * 8) x)
    have htake : ((natBytesLE 8 (twosComp (8 * 8) x) ++ (intsToBytes 8 xs ++ extra)).take 8) =
        natBytesLE 8 (twosComp (8 * 8) x) := List.take_left' hlen
    have hdrop : ((natBytesLE 8 (twosComp (8 * 8) x) ++ (intsToBytes 8 xs ++ extra)).drop 8) =
        intsToBytes 8 xs ++ extra := List.drop_left' hlen
    have hm : twosComp 64 x % 256 ^ 8 = twosComp 64 x := by
      have := twosComp_lt 64 x
      exact Nat.mod_eq_of_lt (by norm_num at this ⊢; omega)
    simp only [intsToBytes_cons, List.length_cons, bytesToInts, List.append_assoc,
      htake, hdrop]
    norm_num
    rw [natFromLE_natBytesLE, hm, toSigned_twosComp_64 x hx.1 hx.2]
    exact ⟨rfl, ih (fun y hy => h y (by simp [hy]))⟩

theorem bytesToWords_wordsToBytes (ws : List Nat)
    (h : ∀ w ∈ ws, w < 18446744073709551616) (extra : List Nat) :
    bytesToWords ws.length (wordsToBytes ws ++ extra) = ws := by
  induction ws with
  | nil => simp [bytesToWords]
  | cons w ws ih =>
    have hx := h w (by simp)
    have hlen := natBytesLE_length 8 w
    have htake : ((natBytesLE 8 w ++ (wordsToBytes ws ++ extra)).take 8) =
        natBytesLE 8 w := List.take_left' hlen
    have hdrop : ((natBytesLE 8 w ++ (wordsToBytes ws ++ extra)).drop 8) =
        wordsToBytes ws ++ extra := List.drop_left' hlen
    have hm : w % 256 ^ 8 = w := Nat.mod_eq_of_lt (by norm_num; omega)
    simp only [wordsToBytes_cons, List.length_cons, bytesToWords, List.append_assoc,
      htake, hdrop]
    rw [natFromLE_natBytesLE, hm, ih (fun y hy => h y (by simp [hy]))]

theorem sizeBytes_length (n : Nat) :
    (sizeBytes n).length = if n < 254 then 1 else if n ≤ 65535 then 3 else 5 := by
  simp only [sizeBytes]
  split_ifs <;> simp [natBytesLE_length]

theorem readVA_null (f : Nat) (rest : List Nat) (orig : Nat) :
    readValueAligned (f + 1) (0 :: rest) orig = .ok (.vnil, rest) := rfl

theorem readVA_true (f : Nat) (rest : List Nat) (orig : Nat) :
    readValueAligned (f + 1) (1 :: rest) orig = .ok (.vbool true, rest) := rfl

theorem readVA_false (f : Nat) (rest : List Nat) (orig : Nat) :
    readValueAligned (f + 1) (2 :: rest) orig = .ok (.vbool false, rest) := rfl

theorem readVA_int32_ok (f : Nat) (rest b2 : List Nat) (orig : Nat) (n : Int)
    (h : readInt32 rest = .ok (n, b2)) :
    readValueAligned (f + 1) (3 :: rest) orig = .ok (.vint32 n, b2) := by
  simp [readValueAligned, readValueStep, standardMessageTypeNull, standardMessageTypeTrue,
    standardMessageTypeFalse, standardMessageTypeInt32, h, bind, Except.bind]

theorem readVA_int64_ok (f : Nat) (rest b2 : List Nat) (orig : Nat) (n : Int)
    (h : readInt64 rest = .ok (n, b2)) :
    readValueAligned (f + 1) (4 :: rest) orig = .ok (.vint64 n, b2) := by
  simp [readValueAligned, readValueStep, standardMessageTypeNull, standardMessageTypeTrue,
    standardMessageTypeFalse, standardMessageTypeInt32, standardMessageTypeInt64,
    h, bind, Except.bind]

theorem readVA_float64_ok (f : Nat) (rest b2 : List Nat) (orig : Nat) (bits : Nat)
    (h : readFloat64 (readAlignment rest orig 8) = .ok (bits, b2)) :
    readValueAligned (f + 1) (6 :: rest) orig = .ok (.vfloat64 bits, b2) := by
  simp [readValueAligned, readValueStep, standardMessageTypeNull, standardMessageTypeTrue,
    standardMessageTypeFalse, standardMessageTypeInt32, standardMessageTypeInt64,
    standardMessageTypeFloat64, h, bind, Except.bind]

theorem readVA_bigint_ok (f : Nat) (rest b2 : List Nat) (orig : Nat) (bs : List Nat)
    (n : Int) (h : readBytes rest = .ok (bs, b2)) (h2 : setString16 bs = some n) :
    readValueAligned (f + 1) (5 :: rest) orig = .ok (.vbigint n, b2) := by
  simp [readValueAligned, readValueStep, standardMessageTypeNull, standardMessageTypeTrue,
    standardMessageTypeFalse, standardMessageTypeInt32, standardMessageTypeInt64,
    standardMessageTypeFloat64, standardMessageTypeBigint, h, h2, bind, Except.bind]

theorem readVA_string_ok (f : Nat) (rest b2 : List Nat) (orig : Nat) (bs : List Nat)
    (h : readBytes rest = .ok (bs, b2)) :
    readValueAligned (f + 1) (7 :: rest) orig = .ok (.vstring bs, b2) := by
  simp [readValueAligned, readValueStep, standardMessageTypeNull, standardMessageTypeTrue,
    standardMessageTypeFalse, standardMessageTypeInt32, standardMessageTypeInt64,
    standardMessageTypeFloat64, standardMessageTypeBigint, standardMessageTypeString,
    h, bind, Except.bind]

theorem readVA_bytes_ok (f : Nat) (rest b2 : List Nat) (orig : Nat) (bs : List Nat)
    (h : readBytes rest = .ok (bs, b2)) :
    readValueAligned (f + 1) (8 :: rest) orig = .ok (.vbytes bs, b2) := by
  simp [readValueAligned, readValueStep, standardMessageTypeNull, standardMessageTypeTrue,
    standardMessageTypeFalse, standardMessageTypeInt32, standardMessageTypeInt64,
    standardMessageTypeFloat64, standardMessageTypeBigint, standardMessageTypeString,
    standardMessageTypeByteSlice, h, bind, Except.bind]

theorem readVA_int32s_ok (f : Nat) (rest b2 b4 : List Nat) (orig : Nat) (len : Int)
    (bs : List Nat) (h1 : readSize rest = .ok (len, b2)) (hlen : ¬ len < 0)
    (h2 : readExact (readAlignment b2 orig 4) (4 * len.toNat) = .ok (bs, b4)) :
    readValueAligned (f + 1) (9 :: rest) orig =
      .ok (.vint32s (bytesToInts 4 len.toNat bs), b4) := by
  simp [readValueAligned, readValueStep, standardMessageTypeNull, standardMessageTypeTrue,
    standardMessageTypeFalse, standardMessageTypeInt32, standardMessageTypeInt64,
    standardMessageTypeFloat64, standardMessageTypeBigint, standardMessageTypeString,
    standardMessageTypeByteSlice, standardMessageTypeInt32Slice,
    h1, hlen, h2, bind, Except.bind]

theorem readVA_int64s_ok (f : Nat) (rest b2 b4 : List Nat) (orig : Nat) (len : Int)
    (bs : List Nat) (h1 : readSize rest = .ok (len, b2)) (hlen : ¬ len < 0)
    (h2 : readExact (readAlignment b2 orig 8) (8 * len.toNat) = .ok (bs, b4)) :
    readValueAligned (f + 1) (10 :: rest) orig =
      .ok (.vint64s (bytesToInts 8 len.toNat bs), b4) := by
  simp [readValueAligned, readValueStep, standardMessageTypeNull, standardMessageTypeTrue,
    standardMessageTypeFalse, standardMessageTypeInt32, standardMessageTypeInt64,
    standardMessageTypeFloat64, standardMessageTypeBigint, standardMessageTypeString,
    standardMessageTypeByteSlice, standardMessageTypeInt32Slice,
    standardMessageTypeInt64Slice, h1, hlen, h2, bind, Except.bind]

theorem readVA_float64s_ok (f : Nat) (rest b2 b4 : List Nat) (orig : Nat) (len : Int)
    (bs : List Nat) (h1 : readSize rest = .ok (len, b2)) (hlen : ¬ len < 0)
    (h2 : readExact (readAlignment b2 orig 8) (8 * len.toNat) = .ok (bs, b4)) :
    readValueAligned (f + 1) (11 :: rest) orig =
      .ok (.vfloat64s (bytesToWords len.toNat bs), b4) := by
  simp [readValueAligned, readValueStep, standardMessageTypeNull, standardMessageTypeTrue,
    standardMessageTypeFalse, standardMessageTypeInt32, standardMessageTypeInt64,
    standardMessageTypeFloat64, standardMessageTypeBigint, standardMessageTypeString,
    standardMessageTypeByteSlice, standardMessageTypeInt32Slice,
    standardMessageTypeInt64Slice, standardMessageTypeFloat64Slice,
    h1, hlen, h2, bind, Except.bind]

theorem readVA_list_ok (f : Nat) (rest b2 b3 : List Nat) (orig : Nat) (len : Int)
    (vs : List GoValue)
    (h1 : readSize rest = .ok (len, b2)) (hlen : ¬ len < 0)
    (h2 : readSeq (fun b => readValueAligned f b orig) len.toNat b2 = .ok (vs, b3)) :
    readValueAligned (f + 1) (12 :: rest) orig = .ok (.vlist vs, b3) := by
  simp [readValueAligned, readValueStep, standardMessageTypeNull, standardMessageTypeTrue,
    standardMessageTypeFalse, standardMessageTypeInt32, standardMessageTypeInt64,
    standardMessageTypeFloat64, standardMessageTypeBigint, standardMessageTypeString,
    standardMessageTypeByteSlice, standardMessageTypeInt32Slice,
    standardMessageTypeInt64Slice, standardMessageTypeFloat64Slice,
    standardMessageTypeList, h1, hlen, h2, bind, Except.bind]

theorem readVA_map_ok (f : Nat) (rest b2 b3 : List Nat) (orig : Nat) (len : Int)
    (m : List (GoValue × GoValue))
    (h1 : readSize rest = .ok (len, b2))
    (h2 : readMapSeq (fun b => readValueAligned f b orig) len.toNat b2 [] = .ok (m, b3)) :
    readValueAligned (f + 1) (13 :: rest) orig = .ok (.vmap m, b3) := by
  simp [readValueAligned, readValueStep, standardMessageTypeNull, standardMessageTypeTrue,
    standardMessageTypeFalse, standardMessageTypeInt32, standardMessageTypeInt64,
    standardMessageTypeFloat64, standardMessageTypeBigint, standardMessageTypeString,
    standardMessageTypeByteSlice, standardMessageTypeInt32Slice,
    standardMessageTypeInt64Slice, standardMessageTypeFloat64Slice,
    standardMessageTypeList, standardMessageTypeMap, h1, h2, bind, Except.bind]

theorem goodSize_lt (n : Nat) (h : goodSize n = true) : n < 4294967296 := by
  have := goodSize_cases n h
  omega

theorem writeBytes_eq (buf bs : List Nat) (h : goodSize bs.length = true) :
    writeBytes buf bs = .ok (buf ++ (sizeBytes bs.length ++ bs)) := by
  simp [writeBytes, writeSize_nat buf bs.length (goodSize_lt _ h), bind, Except.bind,
    List.append_assoc]

theorem readBytes_sizeBytes (bs : List Nat) (h : goodSize bs.length = true)
    (rest : List Nat) :
    readBytes (sizeBytes bs.length ++ (bs ++ rest)) = .ok (bs, rest) := by
  have h1 := readSize_sizeBytes bs.length h (bs ++ rest)
  have h2 : bufNext (bs ++ rest) ((bs.length : Nat) : Int) = .ok (bs, rest) := by
    simp [bufNext, List.take_left, List.drop_left]
  simp [readBytes, h1, h2, bind, Except.bind]

set_option maxHeartbeats 1000000 in
theorem writeRead_main : ∀ N : Nat,
    (∀ v : GoValue, sizeOf v ≤ N → encOK v = true → ∀ pre : List Nat,
      ∃ e : List Nat, writeValue pre v = .ok (pre ++ e) ∧ 1 ≤ e.length ∧
        ∀ suffix fuel orig, e.length ≤ fuel →
          orig = pre.length + e.length + suffix.length →
          readValueAligned fuel (e ++ suffix) orig = .ok (v, suffix)) ∧
    (∀ xs : List GoValue, sizeOf xs ≤ N → encOKList xs = true → ∀ pre : List Nat,
      ∃ e : List Nat, writeValues pre xs = .ok (pre ++ e) ∧
        ∀ suffix fuel orig, e.length ≤ fuel →
          orig = pre.length + e.length + suffix.length →
          readSeq (fun b => readValueAligned fuel b orig) xs.length (e ++ suffix) =
            .ok (xs, suffix)) ∧
    (∀ ps : List (GoValue × GoValue), sizeOf ps ≤ N → encOKPairs ps = true →
      keysDistinct ps = true → ps.all (fun p => hashable p.1) = true → ∀ pre : List Nat,
      ∃ e : List Nat, writePairs pre ps = .ok (pre ++ e) ∧
        ∀ suffix fuel orig m0, e.length ≤ fuel →
          orig = pre.length + e.length + suffix.length →
          (∀ q ∈ m0, ∀ p ∈ ps, goEq q.1 p.1 = false) →
          readMapSeq (fun b => readValueAligned fuel b orig) ps.length (e ++ suffix) m0 =
            .ok (m0 ++ ps, suffix)) := by
  intro N
  induction N with
  | zero =>
    refine ⟨?_, ?_, ?_⟩
    · intro v hv
      exfalso
      cases v <;> simp at hv
    · intro xs hxs
      exfalso
      cases xs <;> simp at hxs
    · intro ps hps
      exfalso
      cases ps <;> simp at hps
  | succ N ih =>
    obtain ⟨ihv, ihl, ihp⟩ := ih
    refine ⟨?_, ?_, ?_⟩
    · -- single values
      intro v hv hok pre
      cases v with
      | vnil =>
        refine ⟨[0], by simp [writeValue, standardMessageTypeNull], by simp, ?_⟩
        intro suffix fuel orig hfuel horig
        cases fuel with
        | zero => simp at hfuel
        | succ f => exact readVA_null f suffix orig
      | vbool b =>
        cases b with
        | true =>
          refine ⟨[1], by simp [writeValue, standardMessageTypeTrue], by simp, ?_⟩
          intro suffix fuel orig hfuel horig
          cases fuel with
          | zero => simp at hfuel
          | succ f => exact readVA_true f suffix orig
        | false =>
          refine ⟨[2], by simp [writeValue, standardMessageTypeFalse], by simp, ?_⟩
          intro suffix fuel orig hfuel horig
          cases fuel with
          | zero => simp at hfuel
          | succ f => exact readVA_false f suffix orig
      | vint32 n =>
        simp only [encOK, decide_eq_true_eq] at hok
        refine ⟨3 :: natBytesLE 4 (twosComp 32 n), ?_, by simp, ?_⟩
        · simp [writeValue, writeInt32, standardMessageTypeInt32]
        · intro suffix fuel orig hfuel horig
          cases fuel with
          | zero => simp at hfuel
          | succ f =>
            rw [List.cons_append]
            exact readVA_int32_ok f _ _ orig n (readInt32_twosComp n hok.1 hok.2 suffix)
      | vint64 n =>
        simp only [encOK, decide_eq_true_eq] at hok
        refine ⟨4 :: natBytesLE 8 (twosComp 64 n), ?_, by simp, ?_⟩
        · simp [writeValue, writeInt64, standardMessageTypeInt64]
        · intro suffix fuel orig hfuel horig
          cases fuel with
          | zero => simp at hfuel
          | succ f =>
            rw [List.cons_append]
            exact readVA_int64_ok f _ _ orig n (readInt64_twosComp n hok.1 hok.2 suffix)
      | vfloat64 bits =>
        simp only [encOK, decide_eq_true_eq] at hok
        refine ⟨6 :: (padBytes (pre.length + 1) 8 ++ natBytesLE 8 bits), ?_, by simp, ?_⟩
        · simp [writeValue, writeFloat64, standardMessageTypeFloat64, writeAlignment_eq,
            List.append_assoc]
        · intro suffix fuel orig hfuel horig
          cases fuel with
          | zero => simp at hfuel
          | succ f =>
            have hlen8 := natBytesLE_length 8 bits
            have horig2 : orig = (pre.length + 1) + (padBytes (pre.length + 1) 8).length +
                (natBytesLE 8 bits ++ suffix).length := by
              simp only [List.length_cons, List.length_append, hlen8] at horig ⊢
              omega
            have halign := readAlignment_pad (pre.length + 1) 8 (by norm_num)
              (natBytesLE 8 bits ++ suffix) orig horig2
            rw [List.cons_append, List.append_assoc]
            exact readVA_float64_ok f _ _ orig bits
              (by rw [halign]; exact readFloat64_bytes bits hok suffix)
      | vbigint n =>
        simp only [encOK] at hok
        refine ⟨5 :: (sizeBytes (text16 n).length ++ text16 n), ?_, by simp, ?_⟩
        · simp [writeValue, writeString, standardMessageTypeBigint, writeBytes_eq _ _ hok,
            List.append_assoc]
        · intro suffix fuel orig hfuel horig
          cases fuel with
          | zero => simp at hfuel
          | succ f =>
            rw [List.cons_append, List.append_assoc]
            exact readVA_bigint_ok f _ _ orig (text16 n) n
              (readBytes_sizeBytes (text16 n) hok suffix) (setString16_text16 n)
      | vstring s =>
        simp only [encOK, Bool.and_eq_true] at hok
        refine ⟨7 :: (sizeBytes s.length ++ s), ?_, by simp, ?_⟩
        · simp [writeValue, writeString, standardMessageTypeString, writeBytes_eq _ _ hok.2,
            List.append_assoc]
        · intro suffix fuel orig hfuel horig
          cases fuel with
          | zero => simp at hfuel
          | succ f =>
            rw [List.cons_append, List.append_assoc]
            exact readVA_string_ok f _ _ orig s (readBytes_sizeBytes s hok.2 suffix)
      | vbytes bs =>
        simp only [encOK, Bool.and_eq_true] at hok
        refine ⟨8 :: (sizeBytes bs.length ++ bs), ?_, by simp, ?_⟩
        · simp [writeValue, standardMessageTypeByteSlice, writeBytes_eq _ _ hok.2,
            List.append_assoc]
        · intro suffix fuel orig hfuel horig
          cases fuel with
          | zero => simp at hfuel
          | succ f =>
            rw [List.cons_append, List.append_assoc]
            exact readVA_bytes_ok f _ _ orig bs (readBytes_sizeBytes bs hok.2 suffix)
      | vint32s xs =>
        simp only [encOK, Bool.and_eq_true] at hok
        obtain ⟨hall, hgs⟩ := hok
        have hall2 : ∀ x ∈ xs, -2147483648 ≤ x ∧ x < 2147483648 := by
          simp only [List.all_eq_true, decide_eq_true_eq] at hall
          exact hall
        have hb : writeSize (pre ++ [9]) ((xs.length : Nat) : Int) =
            .ok ((pre ++ [9]) ++ sizeBytes xs.length) := writeSize_nat _ _ (goodSize_lt _ hgs)
        have hlen9 : ((pre ++ [9]) ++ sizeBytes xs.length).length =
            pre.length + 1 + (sizeBytes xs.length).length := by
          simp
          omega
        have hil := intsToBytes_length 4 xs
        refine ⟨9 :: (sizeBytes xs.length ++
          (padBytes (pre.length + 1 + (sizeBytes xs.length).length) 4 ++ (intsToBytes 4 xs))),
          ?_, by simp, ?_⟩
        · simp only [writeValue, standardMessageTypeInt32Slice, hb, bind, Except.bind,
            writeAlignment_eq, hlen9]
          simp [List.append_assoc]
        · intro suffix fuel orig hfuel horig
          cases fuel with
          | zero => simp at hfuel
          | succ f =>
            have horig2 : orig = (pre.length + 1 + (sizeBytes xs.length).length) +
                (padBytes (pre.length + 1 + (sizeBytes xs.length).length) 4).length +
                ((intsToBytes 4 xs) ++ suffix).length := by
              simp only [List.length_cons, List.length_append, List.length_nil] at horig ⊢
              omega
            have halign := readAlignment_pad (pre.length + 1 + (sizeBytes xs.length).length)
              4 (by norm_num) ((intsToBytes 4 xs) ++ suffix) orig horig2
            have hexact : readExact (readAlignment
                (padBytes (pre.length + 1 + (sizeBytes xs.length).length) 4 ++
                  ((intsToBytes 4 xs) ++ suffix)) orig 4)
                (4 * ((xs.length : Int)).toNat) = .ok ((intsToBytes 4 xs), suffix) := by
              rw [halign, Int.toNat_natCast]
              exact readExact_of_len _ _ _ (by rw [hil])
            have hfinal : (bytesToInts 4) ((xs.length : Int)).toNat (intsToBytes 4 xs) = xs := by
              rw [Int.toNat_natCast]
              have := bytesToInts_int32 xs hall2 []
              simpa using this
            have hstep := readVA_int32s_ok f _ _ _ orig ((xs.length : Nat) : Int) (intsToBytes 4 xs)
              (readSize_sizeBytes xs.length hgs _) (by omega) hexact
            simp only [List.cons_append, List.append_assoc]
            rw [hstep, hfinal]
      | vint64s xs =>
        simp only [encOK, Bool.and_eq_true] at hok
        obtain ⟨hall, hgs⟩ := hok
        have hall2 : ∀ x ∈ xs, -9223372036854775808 ≤ x ∧ x < 9223372036854775808 := by
          simp only [List.all_eq_true, decide_eq_true_eq] at hall
          exact hall
        have hb : writeSize (pre ++ [10]) ((xs.length : Nat) : Int) =
            .ok ((pre ++ [10]) ++ sizeBytes xs.length) := writeSize_nat _ _ (goodSize_lt _ hgs)
        have hlen9 : ((pre ++ [10]) ++ sizeBytes xs.length).length =
            pre.length + 1 + (sizeBytes xs.length).length := by
          simp
          omega
        have hil := intsToBytes_length 8 xs
        refine ⟨10 :: (sizeBytes xs.length ++
          (padBytes (pre.length + 1 + (sizeBytes xs.length).length) 8 ++ (intsToBytes 8 xs))),
          ?_, by simp, ?_⟩
        · simp only [writeValue, standardMessageTypeInt64Slice, hb, bind, Except.bind,
            writeAlignment_eq, hlen9]
          simp [List.append_assoc]
        · intro suffix fuel orig hfuel horig
          cases fuel with
          | zero => simp at hfuel
          | succ f =>
            have horig2 : orig = (pre.length + 1 + (sizeBytes xs.length).length) +
                (padBytes (pre.length + 1 + (sizeBytes xs.length).length) 8).length +
                ((intsToBytes 8 xs) ++ suffix).length := by
              simp only [List.length_cons, List.length_append, List.length_nil] at horig ⊢
              omega
            have halign := readAlignment_pad (pre.length + 1 + (sizeBytes xs.length).length)
              8 (by norm_num) ((intsToBytes 8 xs) ++ suffix) orig horig2
            have hexact : readExact (readAlignment
                (padBytes (pre.length + 1 + (sizeBytes xs.length).length) 8 ++
                  ((intsToBytes 8 xs) ++ suffix)) orig 8)
                (8 * ((xs.length : Int)).toNat) = .ok ((intsToBytes 8 xs), suffix) := by
              rw [halign, Int.toNat_natCast]
              exact readExact_of_len _ _ _ (by rw [hil])
            have hfinal : (bytesToInts 8) ((xs.length : Int)).toNat (intsToBytes 8 xs) = xs := by
              rw [Int.toNat_natCast]
              have := bytesToInts_int64 xs hall2 []
              simpa using this
            have hstep := readVA_int64s_ok f _ _ _ orig ((xs.length : Nat) : Int) (intsToBytes 8 xs)
              (readSize_sizeBytes xs.length hgs _) (by omega) hexact
            simp only [List.cons_append, List.append_assoc]
            rw [hstep, hfinal]
      | vfloat64s ws =>
        simp only [encOK, Bool.and_eq_true] at hok
        obtain ⟨hall, hgs⟩ := hok
        have hall2 : ∀ x ∈ ws, x < 18446744073709551616 := by
          simp only [List.all_eq_true, decide_eq_true_eq] at hall
          exact hall
        have hb : writeSize (pre ++ [11]) ((ws.length : Nat) : Int) =
            .ok ((pre ++ [11]) ++ sizeBytes ws.length) := writeSize_nat _ _ (goodSize_lt _ hgs)
        have hlen9 : ((pre ++ [11]) ++ sizeBytes ws.length).length =
            pre.length + 1 + (sizeBytes ws.length).length := by
          simp
          omega
        have hil := wordsToBytes_length ws
        refine ⟨11 :: (sizeBytes ws.length ++
          (padBytes (pre.length + 1 + (sizeBytes ws.length).length) 8 ++ (wordsToBytes ws))),
          ?_, by simp, ?_⟩
        · simp only [writeValue, standardMessageTypeFloat64Slice, hb, bind, Except.bind,
            writeAlignment_eq, hlen9]
          simp [List.append_assoc]
        · intro suffix fuel orig hfuel horig
          cases fuel with
          | zero => simp at hfuel
          | succ f =>
            have horig2 : orig = (pre.length + 1 + (sizeBytes ws.length).length) +
                (padBytes (pre.length + 1 + (sizeBytes ws.length).length) 8).length +
                ((wordsToBytes ws) ++ suffix).length := by
              simp only [List.length_cons, List.length_append, List.length_nil] at horig ⊢
              omega
            have halign := readAlignment_pad (pre.length + 1 + (sizeBytes ws.length).length)
              8 (by norm_num) ((wordsToBytes ws) ++ suffix) orig horig2
            have hexact : readExact (readAlignment
                (padBytes (pre.length + 1 + (sizeBytes ws.length).length) 8 ++
                  ((wordsToBytes ws) ++ suffix)) orig 8)
                (8 * ((ws.length : Int)).toNat) = .ok ((wordsToBytes ws), suffix) := by
              rw [halign, Int.toNat_natCast]
              exact readExact_of_len _ _ _ (by rw [hil])
            have hfinal : bytesToWords ((ws.length : Int)).toNat (wordsToBytes ws) = ws := by
              rw [Int.toNat_natCast]
              have := bytesToWords_wordsToBytes ws hall2 []
              simpa using this
            have hstep := readVA_float64s_ok f _ _ _ orig ((ws.length : Nat) : Int) (wordsToBytes ws)
              (readSize_sizeBytes ws.length hgs _) (by omega) hexact
            simp only [List.cons_append, List.append_assoc]
            rw [hstep, hfinal]
      | vlist xs =>
        simp only [encOK, Bool.and_eq_true] at hok
        obtain ⟨hgs, hoklist⟩ := hok
        have hsz : sizeOf xs ≤ N := by
          simp at hv
          omega
        have hb : writeSize (pre ++ [12]) ((xs.length : Nat) : Int) =
            .ok ((pre ++ [12]) ++ sizeBytes xs.length) := writeSize_nat _ _ (goodSize_lt _ hgs)
        obtain ⟨e2, hw2, hr2⟩ := ihl xs hsz hoklist ((pre ++ [12]) ++ sizeBytes xs.length)
        refine ⟨12 :: (sizeBytes xs.length ++ e2), ?_, by simp, ?_⟩
        · simp only [writeValue, standardMessageTypeList, hb, bind, Except.bind, hw2]
          simp [List.append_assoc]
        · intro suffix fuel orig hfuel horig
          cases fuel with
          | zero => simp at hfuel
          | succ f =>
            have hf2 : e2.length ≤ f := by
              simp only [List.length_cons, List.length_append, List.length_nil] at hfuel
              omega
            have horig2 : orig = ((pre ++ [12]) ++ sizeBytes xs.length).length + e2.length +
                suffix.length := by
              simp only [List.length_cons, List.length_append, List.length_nil] at horig ⊢
              omega
            have hseq := hr2 suffix f orig hf2 horig2
            simp only [List.cons_append, List.append_assoc]
            exact readVA_list_ok f _ _ _ orig ((xs.length : Nat) : Int) xs
              (readSize_sizeBytes xs.length hgs _) (by omega)
              (by rw [Int.toNat_natCast]; exact hseq)
      | vmap ps =>
        simp only [encOK, Bool.and_eq_true] at hok
        obtain ⟨⟨⟨hgs, hkd⟩, hhash⟩, hokp⟩ := hok
        have hsz : sizeOf ps ≤ N := by
          simp at hv
          omega
        have hb : writeSize (pre ++ [13]) ((ps.length : Nat) : Int) =
            .ok ((pre ++ [13]) ++ sizeBytes ps.length) := writeSize_nat _ _ (goodSize_lt _ hgs)
        obtain ⟨e2, hw2, hr2⟩ := ihp ps hsz hokp hkd hhash ((pre ++ [13]) ++ sizeBytes ps.length)
        refine ⟨13 :: (sizeBytes ps.length ++ e2), ?_, by simp, ?_⟩
        · simp only [writeValue, standardMessageTypeMap, hb, bind, Except.bind, hw2]
          simp [List.append_assoc]
        · intro suffix fuel orig hfuel horig
          cases fuel with
          | zero => simp at hfuel
          | succ f =>
            have hf2 : e2.length ≤ f := by
              simp only [List.length_cons, List.length_append, List.length_nil] at hfuel
              omega
            have horig2 : orig = ((pre ++ [13]) ++ sizeBytes ps.length).length + e2.length +
                suffix.length := by
              simp only [List.length_cons, List.length_append, List.length_nil] at horig ⊢
              omega
            have hseq := hr2 suffix f orig [] hf2 horig2 (by simp)
            simp only [List.cons_append, List.append_assoc]
            exact readVA_map_ok f _ _ _ orig ((ps.length : Nat) : Int) ps
              (readSize_sizeBytes ps.length hgs _)
              (by rw [Int.toNat_natCast]; simpa using hseq)
      | vother d => simp [encOK] at hok
    · -- sequences
      intro xs hxs hok pre
      cases xs with
      | nil =>
        refine ⟨[], by simp [writeValues], ?_⟩
        intro suffix fuel orig hfuel horig
        simp [readSeq]
      | cons x xs =>
        simp only [encOKList, Bool.and_eq_true] at hok
        have hszx : sizeOf x ≤ N := by
          simp at hxs
          omega
        have hszxs : sizeOf xs ≤ N := by
          simp at hxs
          omega
        obtain ⟨e1, hw1, _, hr1⟩ := ihv x hszx hok.1 pre
        obtain ⟨e2, hw2, hr2⟩ := ihl xs hszxs hok.2 (pre ++ e1)
        refine ⟨e1 ++ e2, ?_, ?_⟩
        · simp only [writeValues, hw1, bind, Except.bind, hw2, List.append_assoc]
        · intro suffix fuel orig hfuel horig
          have h1 := hr1 (e2 ++ suffix) fuel orig
            (by simp at hfuel ⊢; omega) (by simp at horig ⊢; omega)
          have h2 := hr2 suffix fuel orig
            (by simp at hfuel ⊢; omega) (by simp at horig ⊢; omega)
          simp only [List.length_cons, readSeq, List.append_assoc, h1, bind, Except.bind, h2]
    · -- map pairs
      intro ps hps hok hkd hhash pre
      cases ps with
      | nil =>
        refine ⟨[], by simp [writePairs], ?_⟩
        intro suffix fuel orig m0 hfuel horig hm0
        simp [readMapSeq]
      | cons p ps =>
        obtain ⟨k, v⟩ := p
        simp only [encOKPairs, Bool.and_eq_true] at hok
        obtain ⟨⟨hk, hv2⟩, hps2⟩ := hok
        simp only [keysDistinct, Bool.and_eq_true] at hkd
        obtain ⟨hkfresh, hkd2⟩ := hkd
        simp only [List.all_cons, Bool.and_eq_true] at hhash
        obtain ⟨hhk, hhash2⟩ := hhash
        have hszk : sizeOf k ≤ N := by
          simp at hps
          omega
        have hszv : sizeOf v ≤ N := by
          simp at hps
          omega
        have hszps : sizeOf ps ≤ N := by
          simp at hps
          omega
        obtain ⟨ek, hwk, _, hrk⟩ := ihv k hszk hk pre
        obtain ⟨ev, hwv, _, hrv⟩ := ihv v hszv hv2 (pre ++ ek)
        obtain ⟨eps, hwps, hrps⟩ := ihp ps hszps hps2 hkd2 hhash2 ((pre ++ ek) ++ ev)
        have hkfresh2 : ∀ q ∈ ps, goEq k q.1 = false := by
          simp only [List.all_eq_true, Bool.not_eq_true'] at hkfresh
          exact hkfresh
        refine ⟨ek ++ (ev ++ eps), ?_, ?_⟩
        · simp only [writePairs, hwk, bind, Except.bind, hwv, hwps]
          simp [List.append_assoc]
        · intro suffix fuel orig m0 hfuel horig hm0
          have h1 := hrk (ev ++ (eps ++ suffix)) fuel orig
            (by simp at hfuel ⊢; omega) (by simp at horig ⊢; omega)
          have h2 := hrv (eps ++ suffix) fuel orig
            (by simp at hfuel ⊢; omega) (by simp at horig ⊢; omega)
          have hfresh : ∀ q ∈ m0, goEq q.1 k = false := fun q hq => hm0 q hq (k, v) (by simp)
          have hins : goMapInsert m0 k v = m0 ++ [(k, v)] := goMapInsert_fresh _ _ _ hfresh
          have hm0' : ∀ q ∈ m0 ++ [(k, v)], ∀ p ∈ ps, goEq q.1 p.1 = false := by
            intro q hq p hp
            rcases List.mem_append.mp hq with h | h
            · exact hm0 q h p (by simp [hp])
            · simp at h
              subst h
              exact hkfresh2 p hp
          have h3 := hrps suffix fuel orig (m0 ++ [(k, v)])
            (by simp at hfuel ⊢; omega) (by simp at horig ⊢; omega) hm0'
          simp only [List.length_cons, readMapSeq, List.append_assoc, h1, bind, Except.bind,
            h2, hhk, if_true, hins, h3]
          simp

theorem encode_decode_suffix (v : GoValue) (h : encOK v = true) (s : List Nat) :
    (encodeMessage v).bind (fun bs => decodeMessage (bs ++ s)) = .ok v := by
  obtain ⟨e, hw, _, hr⟩ := (writeRead_main (sizeOf v)).1 v le_rfl h []
  have hw2 : encodeMessage v = .ok e := by simpa [encodeMessage] using hw
  have hread := hr s ((e ++ s).length + 1) ((e ++ s).length)
    (by simp; omega) (by simp)
  simp only [List.length_append] at hread
  simp only [hw2, Except.bind]
  simp [decodeMessage, decodeResult, readValue, hread]

theorem encode_decode (v : GoValue) (h : encOK v = true) :
    (encodeMessage v).bind decodeMessage = .ok v := by
  have := encode_decode_suffix v h []
  simpa using this

theorem bytesOK_iff (buf : List Nat) : bytesOK buf = true ↔ ∀ b ∈ buf, b < 256 := by
  simp [bytesOK]

theorem bytesOK_take (buf : List Nat) (n : Nat) (h : bytesOK buf = true) :
    bytesOK (buf.take n) = true := by
  rw [bytesOK_iff] at h ⊢
  exact fun b hb => h b (List.take_subset n buf hb)

theorem bytesOK_drop (buf : List Nat) (n : Nat) (h : bytesOK buf = true) :
    bytesOK (buf.drop n) = true := by
  rw [bytesOK_iff] at h ⊢
  exact fun b hb => h b (List.drop_subset n buf hb)

theorem readExact_wf (buf : List Nat) (n : Nat) (bs rest : List Nat)
    (hok : bytesOK buf = true) (h : readExact buf n = .ok (bs, rest)) :
    bytesOK bs = true ∧ bytesOK rest = true ∧ bs.length ≤ n := by
  simp only [readExact] at h
  split_ifs at h
  simp only [Except.ok.injEq, Prod.mk.injEq] at h
  obtain ⟨h1, h2⟩ := h
  subst h1
  subst h2
  exact ⟨bytesOK_take _ _ hok, bytesOK_drop _ _ hok, List.length_take_le n buf⟩

theorem toSigned_range_32 (u : Nat) (h : u < 4294967296) :
    -2147483648 ≤ toSigned 32 u ∧ toSigned 32 u < 2147483648 := by
  simp only [toSigned]
  norm_num
  split_ifs <;> omega

theorem toSigned_range_64 (u : Nat) (h : u < 18446744073709551616) :
    -9223372036854775808 ≤ toSigned 64 u ∧ toSigned 64 u < 9223372036854775808 := by
  simp only [toSigned]
  norm_num
  split_ifs <;> omega

theorem natFromLE_lt_of_bytesOK (bs : List Nat) (w : Nat) (h : bytesOK bs = true)
    (hl : bs.length ≤ w) : natFromLE bs < 256 ^ w := by
  have := natFromLE_lt bs ((bytesOK_iff bs).mp h)
  calc natFromLE bs < 256 ^ bs.length := this
    _ ≤ 256 ^ w := Nat.pow_le_pow_right (by norm_num) hl

theorem readInt32_wf (buf : List Nat) (n : Int) (rest : List Nat)
    (hok : bytesOK buf = true) (h : readInt32 buf = .ok (n, rest)) :
    (-2147483648 ≤ n ∧ n < 2147483648) ∧ bytesOK rest = true := by
  simp only [readInt32] at h
  cases he : readExact buf 4 with
  | error e => simp [he, bind, Except.bind] at h
  | ok p =>
    obtain ⟨bs, r⟩ := p
    obtain ⟨hbs, hr, hl⟩ := readExact_wf buf 4 bs r hok he
    simp only [he, bind, Except.bind, Except.ok.injEq, Prod.mk.injEq] at h
    obtain ⟨h1, h2⟩ := h
    subst h2
    have hu : natFromLE bs < 4294967296 := by
      have := natFromLE_lt_of_bytesOK bs 4 hbs hl
      norm_num at this
      omega
    exact ⟨h1 ▸ toSigned_range_32 _ hu, hr⟩

theorem readInt64_wf (buf : List Nat) (n : Int) (rest : List Nat)
    (hok : bytesOK buf = true) (h : readInt64 buf = .ok (n, rest)) :
    (-9223372036854775808 ≤ n ∧ n < 9223372036854775808) ∧ bytesOK rest = true := by
  simp only [readInt64] at h
  cases he : readExact buf 8 with
  | error e => simp [he, bind, Except.bind] at h
  | ok p =>
    obtain ⟨bs, r⟩ := p
    obtain ⟨hbs, hr, hl⟩ := readExact_wf buf 8 bs r hok he
    simp only [he, bind, Except.bind, Except.ok.injEq, Prod.mk.injEq] at h
    obtain ⟨h1, h2⟩ := h
    subst h2
    have hu : natFromLE bs < 18446744073709551616 := by
      have := natFromLE_lt_of_bytesOK bs 8 hbs hl
      norm_num at this
      omega
    exact ⟨h1 ▸ toSigned_range_64 _ hu, hr⟩

theorem readFloat64_wf (buf : List Nat) (bits : Nat) (rest : List Nat)
    (hok : bytesOK buf = true) (h : readFloat64 buf = .ok (bits, rest)) :
    bits < 18446744073709551616 ∧ bytesOK rest = true := by
  simp only [readFloat64] at h
  cases he : readExact buf 8 with
  | error e => simp [he, bind, Except.bind] at h
  | ok p =>
    obtain ⟨bs, r⟩ := p
    obtain ⟨hbs, hr, hl⟩ := readExact_wf buf 8 bs r hok he
    simp only [he, bind, Except.bind, Except.ok.injEq, Prod.mk.injEq] at h
    obtain ⟨h1, h2⟩ := h
    subst h2
    have hu : natFromLE bs < 18446744073709551616 := by
      have := natFromLE_lt_of_bytesOK bs 8 hbs hl
      norm_num at this
      omega
    exact ⟨h1 ▸ hu, hr⟩

theorem readInt16_wf_rest (buf : List Nat) (n : Int) (rest : List Nat)
    (hok : bytesOK buf = true) (h : readInt16 buf = .ok (n, rest)) :
    bytesOK rest = true := by
  simp only [readInt16] at h
  cases he : readExact buf 2 with
  | error e => simp [he, bind, Except.bind] at h
  | ok p =>
    obtain ⟨bs, r⟩ := p
    obtain ⟨_, hr, _⟩ := readExact_wf buf 2 bs r hok he
    simp only [he, bind, Except.bind, Except.ok.injEq, Prod.mk.injEq] at h
    exact h.2 ▸ hr

theorem readSize_wf (buf : List Nat) (n : Int) (rest : List Nat)
    (hok : bytesOK buf = true) (h : readSize buf = .ok (n, rest)) :
    bytesOK rest = true := by
  cases buf with
  | nil => simp [readSize] at h
  | cons b bs =>
    have hbs : bytesOK bs = true := by
      rw [bytesOK_iff] at hok ⊢
      exact fun x hx => hok x (by simp [hx])
    simp only [readSize] at h
    split_ifs at h
    · simp only [Except.ok.injEq, Prod.mk.injEq] at h
      exact h.2 ▸ hbs
    · exact readInt16_wf_rest bs n rest hbs h
    · exact (readInt32_wf bs n rest hbs h).2

theorem readBytes_wf (buf : List Nat) (bs rest : List Nat)
    (hok : bytesOK buf = true) (h : readBytes buf = .ok (bs, rest)) :
    bytesOK bs = true ∧ bytesOK rest = true := by
  simp only [readBytes] at h
  cases hs : readSize buf with
  | error e => simp [hs, bind, Except.bind] at h
  | ok p =>
    obtain ⟨len, b2⟩ := p
    have hb2 := readSize_wf buf len b2 hok hs
    cases hn : bufNext b2 len with
    | error e => simp [hs, hn, bind, Except.bind] at h
    | ok q =>
      obtain ⟨val, b3⟩ := q
      have hval : val = b2.take len.toNat ∧ b3 = b2.drop len.toNat := by
        simp only [bufNext] at hn
        split_ifs at hn
        simp only [Except.ok.injEq, Prod.mk.injEq] at hn
        exact ⟨hn.1.symm, hn.2.symm⟩
      obtain ⟨hv1, hv2⟩ := hval
      subst hv1
      subst hv2
      simp only [hs, hn, bind, Except.bind] at h
      split_ifs at h
      simp only [Except.ok.injEq, Prod.mk.injEq] at h
      obtain ⟨h1, h2⟩ := h
      subst h1
      subst h2
      exact ⟨bytesOK_take _ _ hb2, bytesOK_drop _ _ hb2⟩

theorem readAlignment_bytesOK (buf : List Nat) (orig a : Nat) (h : bytesOK buf = true) :
    bytesOK (readAlignment buf orig a) = true := by
  simp only [readAlignment]
  split_ifs
  · exact bytesOK_drop _ _ h
  · exact h

theorem bytesToInts_range_32 (c : Nat) (bs : List Nat) (h : bytesOK bs = true) :
    ∀ x ∈ bytesToInts 4 c bs, -2147483648 ≤ x ∧ x < 2147483648 := by
  induction c generalizing bs with
  | zero => simp [bytesToInts]
  | succ c ih =>
    intro x hx
    simp only [bytesToInts, List.mem_cons] at hx
    rcases hx with rfl | hx
    · apply toSigned_range_32
      have := natFromLE_lt_of_bytesOK (bs.take 4) 4 (bytesOK_take _ _ h)
        (List.length_take_le 4 bs)
      norm_num at this
      norm_num
      omega
    · exact ih (bs.drop 4) (bytesOK_drop _ _ h) x hx

theorem bytesToInts_range_64 (c : Nat) (bs : List Nat) (h : bytesOK bs = true) :
    ∀ x ∈ bytesToInts 8 c bs, -9223372036854775808 ≤ x ∧ x < 9223372036854775808 := by
  induction c generalizing bs with
  | zero => simp [bytesToInts]
  | succ c ih =>
    intro x hx
    simp only [bytesToInts, List.mem_cons] at hx
    rcases hx with rfl | hx
    · apply toSigned_range_64
      have := natFromLE_lt_of_bytesOK (bs.take 8) 8 (bytesOK_take _ _ h)
        (List.length_take_le 8 bs)
      norm_num at this
      norm_num
      omega
    · exact ih (bs.drop 8) (bytesOK_drop _ _ h) x hx

theorem bytesToWords_range (c : Nat) (bs : List Nat) (h : bytesOK bs = true) :
    ∀ w ∈ bytesToWords c bs, w < 18446744073709551616 := by
  induction c generalizing bs with
  | zero => simp [bytesToWords]
  | succ c ih =>
    intro w hw
    simp only [bytesToWords, List.mem_cons] at hw
    rcases hw with rfl | hw
    · have := natFromLE_lt_of_bytesOK (bs.take 8) 8 (bytesOK_take _ _ h)
        (List.length_take_le 8 bs)
      norm_num at this
      omega
    · exact ih (bs.drop 8) (bytesOK_drop _ _ h) w hw

theorem goMapInsert_wf (m : List (GoValue × GoValue)) (k v : GoValue)
    (hm : decodedWFPairs m = true) (hk : decodedWF k = true) (hv : decodedWF v = true) :
    decodedWFPairs (goMapInsert m k v) = true := by
  induction m with
  | nil => simp [goMapInsert, decodedWFPairs, hk, hv]
  | cons q m ih =>
    obtain ⟨k0, v0⟩ := q
    simp only [decodedWFPairs, Bool.and_eq_true] at hm
    obtain ⟨⟨hk0, hv0⟩, hm2⟩ := hm
    simp only [goMapInsert]
    split_ifs
    · simp [decodedWFPairs, hk0, hv, hm2]
    · simp [decodedWFPairs, hk0, hv0, ih hm2]

theorem readSeq_wf (readOne : List Nat → Except CodecError (GoValue × List Nat))
    (hro : ∀ b v r, bytesOK b = true → readOne b = .ok (v, r) →
      decodedWF v = true ∧ bytesOK r = true) :
    ∀ n buf vs rest, bytesOK buf = true → readSeq readOne n buf = .ok (vs, rest) →
      decodedWFList vs = true ∧ bytesOK rest = true := by
  intro n
  induction n with
  | zero =>
    intro buf vs rest hok h
    simp only [readSeq, Except.ok.injEq, Prod.mk.injEq] at h
    obtain ⟨h1, h2⟩ := h
    subst h1
    subst h2
    exact ⟨rfl, hok⟩
  | succ n ih =>
    intro buf vs rest hok h
    simp only [readSeq] at h
    cases h1 : readOne buf with
    | error e => simp [h1, bind, Except.bind] at h
    | ok p =>
      obtain ⟨v, b2⟩ := p
      obtain ⟨hv, hb2⟩ := hro buf v b2 hok h1
      cases h2 : readSeq readOne n b2 with
      | error e => simp [h1, h2, bind, Except.bind] at h
      | ok q =>
        obtain ⟨vs2, b3⟩ := q
        obtain ⟨hvs2, hb3⟩ := ih b2 vs2 b3 hb2 h2
        simp only [h1, h2, bind, Except.bind, Except.ok.injEq, Prod.mk.injEq] at h
        obtain ⟨h3, h4⟩ := h
        subst h3
        subst h4
        exact ⟨by simp [decodedWFList, hv, hvs2], hb3⟩

theorem readMapSeq_wf (readOne : List Nat → Except CodecError (GoValue × List Nat))
    (hro : ∀ b v r, bytesOK b = true → readOne b = .ok (v, r) →
      decodedWF v = true ∧ bytesOK r = true) :
    ∀ n buf m0 m rest, bytesOK buf = true → decodedWFPairs m0 = true →
      readMapSeq readOne n buf m0 = .ok (m, rest) →
      decodedWFPairs m = true ∧ bytesOK rest = true := by
  intro n
  induction n with
  | zero =>
    intro buf m0 m rest hok hm0 h
    simp only [readMapSeq, Except.ok.injEq, Prod.mk.injEq] at h
    obtain ⟨h1, h2⟩ := h
    subst h1
    subst h2
    exact ⟨hm0, hok⟩
  | succ n ih =>
    intro buf m0 m rest hok hm0 h
    simp only [readMapSeq] at h
    cases h1 : readOne buf with
    | error e => simp [h1, bind, Except.bind] at h
    | ok p =>
      obtain ⟨k, b2⟩ := p
      obtain ⟨hk, hb2⟩ := hro buf k b2 hok h1
      cases h2 : readOne b2 with
      | error e => simp [h1, h2, bind, Except.bind] at h
      | ok q =>
        obtain ⟨v, b3⟩ := q
        obtain ⟨hv, hb3⟩ := hro b2 v b3 hb2 h2
        simp only [h1, h2, bind, Except.bind] at h
        split_ifs at h
        exact ih b3 (goMapInsert m0 k v) m rest hb3 (goMapInsert_wf m0 k v hm0 hk hv) h

set_option maxHeartbeats 1000000 in
theorem readVA_wf : ∀ fuel buf orig v rest,
    bytesOK buf = true → readValueAligned fuel buf orig = .ok (v, rest) →
    decodedWF v = true ∧ bytesOK rest = true := by
  intro fuel
  induction fuel with
  | zero =>
    intro buf orig v rest hok h
    simp [readValueAligned] at h
  | succ f ih =>
    intro buf orig v rest hok h
    cases buf with
    | nil => simp [readValueAligned, readValueStep] at h
    | cons valueType rest0 =>
      have hr0 : bytesOK rest0 = true := by
        rw [bytesOK_iff] at hok ⊢
        exact fun x hx => hok x (by simp [hx])
      rw [show readValueAligned (f + 1) (valueType :: rest0) orig =
        readValueStep (fun b => readValueAligned f b orig) (valueType :: rest0) orig
        from rfl] at h
      rw [readValueStep] at h
      simp only [standardMessageTypeNull, standardMessageTypeTrue,
        standardMessageTypeFalse, standardMessageTypeInt32, standardMessageTypeInt64,
        standardMessageTypeFloat64, standardMessageTypeBigint, standardMessageTypeString,
        standardMessageTypeByteSlice, standardMessageTypeInt32Slice,
        standardMessageTypeInt64Slice, standardMessageTypeFloat64Slice,
        standardMessageTypeList, standardMessageTypeMap] at h
      by_cases ht0 : valueType = 0
      · rw [if_pos ht0] at h
        simp only [Except.ok.injEq, Prod.mk.injEq] at h
        obtain ⟨h1, h2⟩ := h
        subst h1
        subst h2
        exact ⟨rfl, hr0⟩
      rw [if_neg ht0] at h
      by_cases ht1 : valueType = 1
      · rw [if_pos ht1] at h
        simp only [Except.ok.injEq, Prod.mk.injEq] at h
        obtain ⟨h1, h2⟩ := h
        subst h1
        subst h2
        exact ⟨rfl, hr0⟩
      rw [if_neg ht1] at h
      by_cases ht2 : valueType = 2
      · rw [if_pos ht2] at h
        simp only [Except.ok.injEq, Prod.mk.injEq] at h
        obtain ⟨h1, h2⟩ := h
        subst h1
        subst h2
        exact ⟨rfl, hr0⟩
      rw [if_neg ht2] at h
      by_cases ht3 : valueType = 3
      · rw [if_pos ht3] at h
        cases h1 : readInt32 rest0 with
        | error e => simp [h1, bind, Except.bind] at h
        | ok p =>
          obtain ⟨n, b2⟩ := p
          obtain ⟨hn, hb2⟩ := readInt32_wf rest0 n b2 hr0 h1
          simp only [h1, bind, Except.bind, Except.ok.injEq, Prod.mk.injEq] at h
          obtain ⟨h2, h3⟩ := h
          subst h2
          subst h3
          exact ⟨by simp [decodedWF]; omega, hb2⟩
      rw [if_neg ht3] at h
      by_cases ht4 : valueType = 4
      · rw [if_pos ht4] at h
        cases h1 : readInt64 rest0 with
        | error e => simp [h1, bind, Except.bind] at h
        | ok p =>
          obtain ⟨n, b2⟩ := p
          obtain ⟨hn, hb2⟩ := readInt64_wf rest0 n b2 hr0 h1
          simp only [h1, bind, Except.bind, Except.ok.injEq, Prod.mk.injEq] at h
          obtain ⟨h2, h3⟩ := h
          subst h2
          subst h3
          exact ⟨by simp [decodedWF]; omega, hb2⟩
      rw [if_neg ht4] at h
      by_cases ht5 : valueType = 6
      · rw [if_pos ht5] at h
        cases h1 : readFloat64 (readAlignment rest0 orig 8) with
        | error e => simp [h1, bind, Except.bind] at h
        | ok p =>
          obtain ⟨bits, b2⟩ := p
          obtain ⟨hn, hb2⟩ := readFloat64_wf (readAlignment rest0 orig 8) bits b2
            (readAlignment_bytesOK rest0 orig 8 hr0) h1
          simp only [h1, bind, Except.bind, Except.ok.injEq, Prod.mk.injEq] at h
          obtain ⟨h2, h3⟩ := h
          subst h2
          subst h3
          exact ⟨by simp [decodedWF]; omega, hb2⟩
      rw [if_neg ht5] at h
      by_cases ht6 : valueType = 5
      · rw [if_pos ht6] at h
        cases h1 : readBytes rest0 with
        | error e => simp [h1, bind, Except.bind] at h
        | ok p =>
          obtain ⟨bs, b2⟩ := p
          obtain ⟨hbs, hb2⟩ := readBytes_wf rest0 bs b2 hr0 h1
          simp only [h1, bind, Except.bind] at h
          cases h2 : setString16 bs with
          | none => simp [h2] at h
          | some n =>
            simp only [h2, Except.ok.injEq, Prod.mk.injEq] at h
            obtain ⟨h3, h4⟩ := h
            subst h3
            subst h4
            exact ⟨rfl, hb2⟩
      rw [if_neg ht6] at h
      by_cases ht7 : valueType = 7
      · rw [if_pos ht7] at h
        cases h1 : readBytes rest0 with
        | error e => simp [h1, bind, Except.bind] at h
        | ok p =>
          obtain ⟨bs, b2⟩ := p
          obtain ⟨hbs, hb2⟩ := readBytes_wf rest0 bs b2 hr0 h1
          simp only [h1, bind, Except.bind, Except.ok.injEq, Prod.mk.injEq] at h
          obtain ⟨h3, h4⟩ := h
          subst h3
          subst h4
          exact ⟨by simp [decodedWF, hbs], hb2⟩
      rw [if_neg ht7] at h
      by_cases ht8 : valueType = 8
      · rw [if_pos ht8] at h
        cases h1 : readBytes rest0 with
        | error e => simp [h1, bind, Except.bind] at h
        | ok p =>
          obtain ⟨bs, b2⟩ := p
          obtain ⟨hbs, hb2⟩ := readBytes_wf rest0 bs b2 hr0 h1
          simp only [h1, bind, Except.bind, Except.ok.injEq, Prod.mk.injEq] at h
          obtain ⟨h3, h4⟩ := h
          subst h3
          subst h4
          exact ⟨by simp [decodedWF, hbs], hb2⟩
      rw [if_neg ht8] at h
      by_cases ht9 : valueType = 9
      · rw [if_pos ht9] at h
        cases h1 : readSize rest0 with
        | error e => simp [h1, bind, Except.bind] at h
        | ok p =>
          obtain ⟨len, b2⟩ := p
          have hb2 := readSize_wf rest0 len b2 hr0 h1
          have hb3 := readAlignment_bytesOK b2 orig 4 hb2
          simp only [h1, bind, Except.bind] at h
          split_ifs at h
          cases h2 : readExact (readAlignment b2 orig 4) (4 * len.toNat) with
          | error e => simp [h2, bind, Except.bind] at h
          | ok q =>
            obtain ⟨bs, b4⟩ := q
            obtain ⟨hbs, hb4, _⟩ := readExact_wf _ _ bs b4 hb3 h2
            simp only [h2, bind, Except.bind, Except.ok.injEq, Prod.mk.injEq] at h
            obtain ⟨h3, h4⟩ := h
            subst h3
            subst h4
            refine ⟨?_, hb4⟩
            simp only [decodedWF, List.all_eq_true, decide_eq_true_eq]
            exact bytesToInts_range_32 len.toNat bs hbs
      rw [if_neg ht9] at h
      by_cases ht10 : valueType = 10
      · rw [if_pos ht10] at h
        cases h1 : readSize rest0 with
        | error e => simp [h1, bind, Except.bind] at h
        | ok p =>
          obtain ⟨len, b2⟩ := p
          have hb2 := readSize_wf rest0 len b2 hr0 h1
          have hb3 := readAlignment_bytesOK b2 orig 8 hb2
          simp only [h1, bind, Except.bind] at h
          split_ifs at h
          cases h2 : readExact (readAlignment b2 orig 8) (8 * len.toNat) with
          | error e => simp [h2, bind, Except.bind] at h
          | ok q =>
            obtain ⟨bs, b4⟩ := q
            obtain ⟨hbs, hb4, _⟩ := readExact_wf _ _ bs b4 hb3 h2
            simp only [h2, bind, Except.bind, Except.ok.injEq, Prod.mk.injEq] at h
            obtain ⟨h3, h4⟩ := h
            subst h3
            subst h4
            refine ⟨?_, hb4⟩
            simp only [decodedWF, List.all_eq_true, decide_eq_true_eq]
            exact bytesToInts_range_64 len.toNat bs hbs
      rw [if_neg ht10] at h
      by_cases ht11 : valueType = 11
      · rw [if_pos ht11] at h
        cases h1 : readSize rest0 with
        | error e => simp [h1, bind, Except.bind] at h
        | ok p =>
          obtain ⟨len, b2⟩ := p
          have hb2 := readSize_wf rest0 len b2 hr0 h1
          have hb3 := readAlignment_bytesOK b2 orig 8 hb2
          simp only [h1, bind, Except.bind] at h
          split_ifs at h
          cases h2 : readExact (readAlignment b2 orig 8) (8 * len.toNat) with
          | error e => simp [h2, bind, Except.bind] at h
          | ok q =>
            obtain ⟨bs, b4⟩ := q
            obtain ⟨hbs, hb4, _⟩ := readExact_wf _ _ bs b4 hb3 h2
            simp only [h2, bind, Except.bind, Except.ok.injEq, Prod.mk.injEq] at h
            obtain ⟨h3, h4⟩ := h
            subst h3
            subst h4
            refine ⟨?_, hb4⟩
            simp only [decodedWF, List.all_eq_true, decide_eq_true_eq]
            exact bytesToWords_range len.toNat bs hbs
      rw [if_neg ht11] at h
      by_cases ht12 : valueType = 12
      · rw [if_pos ht12] at h
        cases h1 : readSize rest0 with
        | error e => simp [h1, bind, Except.bind] at h
        | ok p =>
          obtain ⟨len, b2⟩ := p
          have hb2 := readSize_wf rest0 len b2 hr0 h1
          simp only [h1, bind, Except.bind] at h
          split_ifs at h
          cases h2 : readSeq (fun b => readValueAligned f b orig) len.toNat b2 with
          | error e => simp [h2, bind, Except.bind] at h
          | ok q =>
            obtain ⟨vs, b3⟩ := q
            obtain ⟨hvs, hb3⟩ := readSeq_wf (fun b => readValueAligned f b orig)
              (fun b v r hb hr => ih b orig v r hb hr) len.toNat b2 vs b3 hb2 h2
            simp only [h2, bind, Except.bind, Except.ok.injEq, Prod.mk.injEq] at h
            obtain ⟨h3, h4⟩ := h
            subst h3
            subst h4
            exact ⟨by simp [decodedWF, hvs], hb3⟩
      rw [if_neg ht12] at h
      by_cases ht13 : valueType = 13
      · rw [if_pos ht13] at h
        cases h1 : readSize rest0 with
        | error e => simp [h1, bind, Except.bind] at h
        | ok p =>
          obtain ⟨len, b2⟩ := p
          have hb2 := readSize_wf rest0 len b2 hr0 h1
          simp only [h1, bind, Except.bind] at h
          cases h2 : readMapSeq (fun b => readValueAligned f b orig) len.toNat b2 [] with
          | error e => simp [h2, bind, Except.bind] at h
          | ok q =>
            obtain ⟨m, b3⟩ := q
            obtain ⟨hm, hb3⟩ := readMapSeq_wf (fun b => readValueAligned f b orig)
              (fun b v r hb hr => ih b orig v r hb hr) len.toNat b2 [] m b3 hb2 rfl h2
            simp only [h2, bind, Except.bind, Except.ok.injEq, Prod.mk.injEq] at h
            obtain ⟨h3, h4⟩ := h
            subst h3
            subst h4
            exact ⟨by simp [decodedWF, hm], hb3⟩
      rw [if_neg ht13] at h
      simp at h

theorem encOKList_replicate_nil (k : Nat) (x : GoValue) :
    encOKList (List.replicate k .vnil ++ [x]) = encOK x := by
  induction k with
  | zero => simp [encOKList, encOK]
  | succ k ih => simp [List.replicate_succ, encOKList, encOK, ih]

theorem encOK_nestFloat (d k w : Nat) (hw : w < 18446744073709551616)
    (hk : k + 1 < 32768) : encOK (nestFloat d k w) = true := by
  induction d with
  | zero =>
    simp only [nestFloat, encOK, encOKList_replicate_nil, Bool.and_eq_true]
    refine ⟨?_, by simp [encOK, hw]⟩
    simp [goodSize]
    omega
  | succ d ih =>
    simp only [nestFloat, encOK, encOKList, Bool.and_eq_true, ih]
    simp [goodSize]

theorem readExact_two (rest : List Nat) :
    readExact (0 :: 128 :: rest) 2 = .ok ([0, 128], rest) := by
  simp [readExact, List.take, List.drop]

theorem readInt16_big (rest : List Nat) :
    readInt16 (0 :: 128 :: rest) = .ok (-32768, rest) := by
  have hval : toSigned 16 (natFromLE [0, 128]) = -32768 := by
    simp [natFromLE, toSigned]
  simp [readInt16, readExact_two, hval, bind, Except.bind]

theorem readSize_big (rest : List Nat) :
    readSize (254 :: 0 :: 128 :: rest) = .ok (-32768, rest) :=
  (show readSize (254 :: 0 :: 128 :: rest) = readInt16 (0 :: 128 :: rest) from rfl).trans
    (readInt16_big rest)

theorem readBytes_big_panic (rest : List Nat) :
    readBytes (254 :: 0 :: 128 :: rest) =
      .error (.goPanic "slice bounds out of range") :=
  congrArg (fun r => Except.bind r
    (fun (p : Int × List Nat) => Except.bind (bufNext p.2 p.1)
      (fun (q : List Nat × List Nat) =>
        if (q.1.length : Int) = p.1 then (Except.ok (q.1, q.2))
        else .error (.corruption "message corrupted: not enough bytes in buffer"))))
    (readSize_big rest)

theorem readVA_string_panic (f : Nat) (rest : List Nat) (orig : Nat) :
    readValueAligned (f + 1) (7 :: 254 :: 0 :: 128 :: rest) orig =
      .error (.goPanic "slice bounds out of range") :=
  congrArg (fun r => Except.bind r
    (fun (p : List Nat × List Nat) =>
      (Except.ok (GoValue.vstring p.1, p.2) : Except CodecError (GoValue × List Nat))))
    (readBytes_big_panic rest)

theorem readVA_bytes_panic (f : Nat) (rest : List Nat) (orig : Nat) :
    readValueAligned (f + 1) (8 :: 254 :: 0 :: 128 :: rest) orig =
      .error (.goPanic "slice bounds out of range") :=
  congrArg (fun r => Except.bind r
    (fun (p : List Nat × List Nat) =>
      (Except.ok (GoValue.vbytes p.1, p.2) : Except CodecError (GoValue × List Nat))))
    (readBytes_big_panic rest)

theorem decode_big_panic_string (s : List Nat) :
    decodeMessage (7 :: 254 :: 0 :: 128 :: s) =
      .error (.goPanic "slice bounds out of range") := by
  exact congrArg decodeResult (readVA_string_panic ((7 :: 254 :: 0 :: 128 :: s).length) s
    ((7 :: 254 :: 0 :: 128 :: s).length))

theorem decode_big_panic_bytes (s : List Nat) :
    decodeMessage (8 :: 254 :: 0 :: 128 :: s) =
      .error (.goPanic "slice bounds out of range") := by
  exact congrArg decodeResult (readVA_bytes_panic ((8 :: 254 :: 0 :: 128 :: s).length) s
    ((8 :: 254 :: 0 :: 128 :: s).length))

theorem encode_string_32768 (s : List Nat) (h : s.length = 32768) :
    encodeMessage (.vstring s) = .ok (7 :: 254 :: 0 :: 128 :: s) := by
  have h0 : encodeMessage (.vstring s) =
      Except.bind (writeSize ([] ++ [7]) ((s.length : Nat) : Int))
        (fun b => (Except.ok (b ++ s) : Except CodecError (List Nat))) := rfl
  rw [h0, h]
  rfl

theorem encode_bytes_32768 (s : List Nat) (h : s.length = 32768) :
    encodeMessage (.vbytes s) = .ok (8 :: 254 :: 0 :: 128 :: s) := by
  have h0 : encodeMessage (.vbytes s) =
      Except.bind (writeSize ([] ++ [8]) ((s.length : Nat) : Int))
        (fun b => (Except.ok (b ++ s) : Except CodecError (List Nat))) := rfl
  rw [h0, h]
  rfl

theorem encode_big_string :
    encodeMessage (.vstring (List.replicate 32768 97)) =
      .ok (7 :: 254 :: 0 :: 128 :: List.replicate 32768 97) :=
  encode_string_32768 (List.replicate 32768 97) (List.length_replicate 32768 97)

theorem encode_big_bytes :
    encodeMessage (.vbytes (List.replicate 32768 0)) =
      .ok (8 :: 254 :: 0 :: 128 :: List.replicate 32768 0) :=
  encode_bytes_32768 (List.replicate 32768 0) (List.length_replicate 32768 0)

set_option maxHeartbeats 1000000 in
theorem c6_duplicate_keys_last_write_wins (k v1 v2 k3 v3 : GoValue)
    (hok1 : encOK k = true) (hok2 : encOK v1 = true) (hok3 : encOK v2 = true)
    (hok4 : encOK k3 = true) (hok5 : encOK v3 = true)
    (hhk : hashable k = true) (hhk3 : hashable k3 = true)
    (hself : goEq k k = true) (hne : goEq k k3 = false) (out : List Nat)
    (hout : (writeValue [13, 3] k).bind (fun b => (writeValue b v1).bind (fun b =>
      (writeValue b k).bind (fun b => (writeValue b v2).bind (fun b =>
      (writeValue b k3).bind (fun b => writeValue b v3))))) = .ok out) :
    decodeMessage out = .ok (.vmap [(k, v2), (k3, v3)]) := by
  obtain ⟨e1, hw1, hl1, hr1⟩ := (writeRead_main (sizeOf k)).1 k le_rfl hok1 [13, 3]
  obtain ⟨e2, hw2, hl2, hr2⟩ :=
    (writeRead_main (sizeOf v1)).1 v1 le_rfl hok2 ([13, 3] ++ e1)
  obtain ⟨e3, hw3, hl3, hr3⟩ :=
    (writeRead_main (sizeOf k)).1 k le_rfl hok1 (([13, 3] ++ e1) ++ e2)
  obtain ⟨e4, hw4, hl4, hr4⟩ :=
    (writeRead_main (sizeOf v2)).1 v2 le_rfl hok3 ((([13, 3] ++ e1) ++ e2) ++ e3)
  obtain ⟨e5, hw5, hl5, hr5⟩ :=
    (writeRead_main (sizeOf k3)).1 k3 le_rfl hok4 (((([13, 3] ++ e1) ++ e2) ++ e3) ++ e4)
  obtain ⟨e6, hw6, hl6, hr6⟩ :=
    (writeRead_main (sizeOf v3)).1 v3 le_rfl hok5
      ((((([13, 3] ++ e1) ++ e2) ++ e3) ++ e4) ++ e5)
  simp only [hw1, Except.bind, hw2, hw3, hw4, hw5, hw6] at hout
  simp only [List.cons_append, List.nil_append, List.append_assoc, Except.ok.injEq] at hout
  subst hout
  obtain ⟨S, hS⟩ :
      ∃ S, (13 :: 3 :: (e1 ++ (e2 ++ (e3 ++ (e4 ++ (e5 ++ e6)))))).length = S := ⟨_, rfl⟩
  have hSval : S = e1.length + e2.length + e3.length + e4.length + e5.length +
      e6.length + 2 := by
    rw [← hS]
    simp [List.length_append]
    omega
  have hd1 : readValueAligned S (e1 ++ (e2 ++ (e3 ++ (e4 ++ (e5 ++ e6))))) S =
      .ok (k, e2 ++ (e3 ++ (e4 ++ (e5 ++ e6)))) := by
    apply hr1
    · omega
    · simp [List.length_append]
      omega
  have hd2 : readValueAligned S (e2 ++ (e3 ++ (e4 ++ (e5 ++ e6)))) S =
      .ok (v1, e3 ++ (e4 ++ (e5 ++ e6))) := by
    apply hr2
    · omega
    · simp [List.length_append]
      omega
  have hd3 : readValueAligned S (e3 ++ (e4 ++ (e5 ++ e6))) S =
      .ok (k, e4 ++ (e5 ++ e6)) := by
    apply hr3
    · omega
    · simp [List.length_append]
      omega
  have hd4 : readValueAligned S (e4 ++ (e5 ++ e6)) S = .ok (v2, e5 ++ e6) := by
    apply hr4
    · omega
    · simp [List.length_append]
      omega
  have hd5 : readValueAligned S (e5 ++ e6) S = .ok (k3, e6) := by
    apply hr5
    · omega
    · simp [List.length_append]
      omega
  have hd6 : readValueAligned S e6 S = .ok (v3, []) := by
    have h := hr6 [] S S (by omega) (by simp [List.length_append]; omega)
    simpa using h
  have hsize : readSize (3 :: (e1 ++ (e2 ++ (e3 ++ (e4 ++ (e5 ++ e6)))))) =
      .ok (3, e1 ++ (e2 ++ (e3 ++ (e4 ++ (e5 ++ e6))))) := by
    simp [readSize]
  have hm : readMapSeq (fun b => readValueAligned S b S) 3
      (e1 ++ (e2 ++ (e3 ++ (e4 ++ (e5 ++ e6))))) [] = .ok ([(k, v2), (k3, v3)], []) := by
    simp [readMapSeq, hd1, hd2, hd3, hd4, hd5, hd6, hhk, hhk3, goMapInsert, hself, hne,
      bind, Except.bind]
  have hread := readVA_map_ok S (3 :: (e1 ++ (e2 ++ (e3 ++ (e4 ++ (e5 ++ e6))))))
    (e1 ++ (e2 ++ (e3 ++ (e4 ++ (e5 ++ e6))))) [] S 3 [(k, v2), (k3, v3)] hsize
    (by simpa using hm)
  have hdm : decodeMessage (13 :: 3 :: (e1 ++ (e2 ++ (e3 ++ (e4 ++ (e5 ++ e6)))))) =
      decodeResult (readValueAligned
        ((13 :: 3 :: (e1 ++ (e2 ++ (e3 ++ (e4 ++ (e5 ++ e6)))))).length + 1)
        (13 :: 3 :: (e1 ++ (e2 ++ (e3 ++ (e4 ++ (e5 ++ e6))))))
        (13 :: 3 :: (e1 ++ (e2 ++ (e3 ++ (e4 ++ (e5 ++ e6)))))).length) := rfl
  rw [hdm, hS, hread]
  rfl

/-- Witness for C6: a concrete map stream with the key "x" occurring twice
decodes to the value of the last pair, with key "y" unaffected. -/
theorem c6_duplicate_keys_last_write_wins_witness :
    goEq (.vstring [120]) (.vstring [120]) = true ∧
    goEq (.vstring [120]) (.vstring [121]) = false ∧
    decodeMessage [13, 3, 7, 1, 120, 3, 1, 0, 0, 0, 7, 1, 120, 3, 2, 0, 0, 0, 7, 1, 121, 0] =
      .ok (.vmap [(.vstring [120], .vint32 2), (.vstring [121], .vnil)]) :=
  ⟨by decide, by decide,
    c6_duplicate_keys_last_write_wins (.vstring [120]) (.vint32 1) (.vint32 2)
      (.vstring [121]) .vnil (by decide) (by decide) (by decide) (by decide) (by decide)
      (by decide) (by decide) (by decide) (by decide)
      [13, 3, 7, 1, 120, 3, 1, 0, 0, 0, 7, 1, 120, 3, 2, 0, 0, 0, 7, 1, 121, 0] rfl⟩

/-- Binding a successful computation applies the continuation. -/
theorem exceptBind_ok {α β ε : Type} (a : α) (f : α → Except ε β) :
    (Except.ok (ε := ε) a).bind f = f a := rfl

/-- Claim C1 (counterexample): the round-trip property fails on the supported
value consisting of a string of 32768 bytes: the decoder misreads the size
field as -32768 and `bytes.Buffer.Next` panics, so decode of encode is a
panic, not the original value. -/
theorem c1_big_string_roundtrip_fails :
    (encodeMessage (GoValue.vstring (List.replicate 32768 97))).bind decodeMessage =
      .error (.goPanic "slice bounds out of range") ∧
    (encodeMessage (GoValue.vstring (List.replicate 32768 97))).bind decodeMessage ≠
      .ok (GoValue.vstring (List.replicate 32768 97)) := by
  have h : (encodeMessage (GoValue.vstring (List.replicate 32768 97))).bind decodeMessage =
      .error (.goPanic "slice bounds out of range") := by
    rw [encode_big_string, exceptBind_ok]
    exact decode_big_panic_string (List.replicate 32768 97)
  exact ⟨h, by rw [h]; intro hco; exact Except.noConfusion hco⟩

/-- Claim C1 (amended): the round-trip property does hold for every supported
value whose string/byte/array/collection lengths avoid the sign-extension
range of `readSize` (below 32768, or in [65536, 2^31)), whose scalars are in
range, and whose map keys are hashable and pairwise distinct:
decode of encode returns exactly the original value. -/
theorem c1_roundtrip_amended (v : GoValue) (h : encOK v = true) :
    (encodeMessage v).bind decodeMessage = .ok v :=
  encode_decode v h

/-- Witness for C1 (amended): the round-trip on the concrete list
["a", 42 (int32), null, true]. -/
theorem c1_roundtrip_amended_witness :
    encOK (GoValue.vlist [.vstring [97], .vint32 42, .vnil, .vbool true]) = true ∧
    (encodeMessage (GoValue.vlist [.vstring [97], .vint32 42, .vnil, .vbool true])).bind
      decodeMessage = .ok (GoValue.vlist [.vstring [97], .vint32 42, .vnil, .vbool true]) :=
  ⟨by decide, c1_roundtrip_amended (GoValue.vlist [.vstring [97], .vint32 42, .vnil, .vbool true])
    (by decide)⟩

/-- Claim C2: the size round-trip holds at 254 but fails at 32768, which is
in the claimed range [0, 65535]: `writeSize` emits the 254 marker with the
two little-endian bytes 0, 128, and `readSize` reads them back through a
signed 16-bit integer, returning -32768 instead of 32768. -/
theorem c2_size_roundtrip_sign_bug :
    writeSize [] 254 = .ok [254, 254, 0] ∧
    readSize [254, 254, 0] = .ok (254, []) ∧
    writeSize [] 32768 = .ok [254, 0, 128] ∧
    readSize [254, 0, 128] = .ok (-32768, []) ∧
    (-32768 : Int) ≠ 32768 :=
  ⟨rfl, rfl, rfl, rfl, by decide⟩

/-- Claim C3: for every size below 2^32, `writeSize` emits 1 byte for sizes
in [0, 253], 3 bytes (discriminator 254 plus a 2-byte integer) for sizes in
[254, 65535], and 5 bytes (discriminator 255 plus a 4-byte integer) for
larger sizes. -/
theorem c3_size_encoding_widths (n : Nat) (h : n < 4294967296) :
    ∃ bs, writeSize [] (n : Int) = .ok bs ∧
      bs.length = (if n < 254 then 1 else if n ≤ 65535 then 3 else 5) ∧
      (n < 254 → bs = [n]) ∧
      (254 ≤ n → n ≤ 65535 → ∃ t, bs = 254 :: t ∧ t.length = 2) ∧
      (65535 < n → ∃ t, bs = 255 :: t ∧ t.length = 4) := by
  have hw := writeSize_nat [] n h
  simp only [List.nil_append] at hw
  refine ⟨sizeBytes n, hw, ?_, ?_, ?_, ?_⟩
  · by_cases hb : n < 254
    · simp [sizeBytes, hb]
    · by_cases hc : n ≤ 65535
      · simp [sizeBytes, hb, hc, natBytesLE_length]
      · simp [sizeBytes, hb, hc, natBytesLE_length]
  · intro hb
    simp [sizeBytes, hb]
  · intro hb hc
    have hb2 : ¬ n < 254 := by omega
    refine ⟨natBytesLE 2 n, ?_, natBytesLE_length 2 n⟩
    simp only [sizeBytes, if_neg hb2, if_pos hc]
  · intro hc
    have hb2 : ¬ n < 254 := by omega
    have hc2 : ¬ n ≤ 65535 := by omega
    refine ⟨natBytesLE 4 n, ?_, natBytesLE_length 4 n⟩
    simp only [sizeBytes, if_neg hb2, if_neg hc2]

/-- Witness for C3: the boundary size 65535 takes 3 bytes with
discriminator 254. -/
theorem c3_size_encoding_widths_witness :
    (65535 : Nat) < 4294967296 ∧
    (∃ bs, writeSize [] ((65535 : Nat) : Int) = .ok bs ∧
      bs.length = (if (65535 : Nat) < 254 then 1 else if (65535 : Nat) ≤ 65535 then 3 else 5) ∧
      ((65535 : Nat) < 254 → bs = [65535]) ∧
      (254 ≤ (65535 : Nat) → (65535 : Nat) ≤ 65535 → ∃ t, bs = 254 :: t ∧ t.length = 2) ∧
      (65535 < (65535 : Nat) → ∃ t, bs = 255 :: t ∧ t.length = 4)) :=
  ⟨by decide, c3_size_encoding_widths 65535 (by decide)⟩

/-- Claim C4: a Float64 nested inside `d + 1` levels of lists after `k`
nulls round-trips for every depth `d`, null count `k` (with `k + 1` a
decodable list length) and bit pattern `w`: the decoder threads the original
buffer length through every recursive call, so root-relative alignment makes
decode of encode return the same float. -/
theorem c4_nested_float_alignment (d k w : Nat) (hw : w < 18446744073709551616)
    (hk : k + 1 < 32768) :
    (encodeMessage (nestFloat d k w)).bind decodeMessage = .ok (nestFloat d k w) :=
  encode_decode (nestFloat d k w) (encOK_nestFloat d k w hw hk)

/-- Witness for C4: the bit pattern of 4.0 nested two lists deep after one
null (an odd byte offset) round-trips. -/
theorem c4_nested_float_alignment_witness :
    (4618441417868443648 : Nat) < 18446744073709551616 ∧ (1 : Nat) + 1 < 32768 ∧
    (encodeMessage (nestFloat 2 1 4618441417868443648)).bind decodeMessage =
      .ok (nestFloat 2 1 4618441417868443648) :=
  ⟨by decide, by decide, c4_nested_float_alignment 2 1 4618441417868443648 (by decide) (by decide)⟩

/-- Claim C5: encoding the big integer 255 yields tag 5 and the size-prefixed
hex string "ff" (bytes 102, 102); encoding -1 yields the size-prefixed
string "-1" (bytes 45, 49), which begins with a minus sign; both decode back
to the original value, and `big.Int.Text 16` produces exactly those strings. -/
theorem c5_bigint_hex_interop :
    encodeMessage (.vbigint 255) = .ok [5, 2, 102, 102] ∧
    decodeMessage [5, 2, 102, 102] = .ok (.vbigint 255) ∧
    encodeMessage (.vbigint (-1)) = .ok [5, 2, 45, 49] ∧
    decodeMessage [5, 2, 45, 49] = .ok (.vbigint (-1)) ∧
    text16 255 = [102, 102] ∧
    text16 (-1) = [45, 49] :=
  ⟨rfl, rfl, rfl, rfl, rfl, rfl⟩

/-- Claim C7: encoding a value of any unsupported runtime category returns a
type error wrapping the value's descriptive category, with no encoded
bytes; it is a `typeError`, not a corruption error or a panic. -/
theorem c7_type_error_on_unsupported (desc : String) :
    encodeMessage (.vother desc) =
      .error (.typeError (("type " ++ desc) ++ " is not supported by StandardMessageCodec")) :=
  rfl

/-- Claim C8: an unrecognized tag ([255] or [14]) and a short fixed-width
read ([3, 0, 0]) are corruption errors, but a declared size whose wire form
sign-extends ([7, 254, 0, 128], a string declaring 32768 bytes with none
following) makes the code panic in `bytes.Buffer.Next` instead of returning
a corruption error, contradicting the claim. -/
theorem c8_corruption_and_short_read :
    decodeMessage [255] = .error (.corruption "invalid message value type") ∧
    decodeMessage [14] = .error (.corruption "invalid message value type") ∧
    decodeMessage [3, 0, 0] = .error (.corruption "unexpected EOF") ∧
    decodeMessage [7, 254, 0, 128] = .error (.goPanic "slice bounds out of range") := by
  refine ⟨rfl, rfl, rfl, ?_⟩
  exact decode_big_panic_string []

/-- Claim C9 (counterexample): appending trailing bytes does not always
leave the decode of an encoded supported value intact: for a byte buffer of
32768 bytes the decoder panics on the sign-extended size, so the claimed
prefix-decode property fails. -/
theorem c9_trailing_bytes_big_bytes_fails :
    (encodeMessage (GoValue.vbytes (List.replicate 32768 0))).bind
      (fun bs => decodeMessage (bs ++ [9, 9, 9])) =
      .error (.goPanic "slice bounds out of range") ∧
    (encodeMessage (GoValue.vbytes (List.replicate 32768 0))).bind
      (fun bs => decodeMessage (bs ++ [9, 9, 9])) ≠
      .ok (GoValue.vbytes (List.replicate 32768 0)) := by
  have h : (encodeMessage (GoValue.vbytes (List.replicate 32768 0))).bind
      (fun bs => decodeMessage (bs ++ [9, 9, 9])) =
      .error (.goPanic "slice bounds out of range") := by
    rw [encode_big_bytes, exceptBind_ok]
    show decodeMessage ((8 :: 254 :: 0 :: 128 :: List.replicate 32768 0) ++ [9, 9, 9]) = _
    rw [List.cons_append, List.cons_append, List.cons_append, List.cons_append]
    exact decode_big_panic_bytes (List.replicate 32768 0 ++ [9, 9, 9])
  exact ⟨h, by rw [h]; intro hco; exact Except.noConfusion hco⟩

/-- Claim C9 (amended): for every supported value satisfying the decodable
length restriction (`encOK`) and every trailing byte sequence, decoding the
encoding followed by the trailing bytes returns exactly the original value:
the decoder reads one value from the front and ignores the rest. -/
theorem c9_prefix_decode_amended (v : GoValue) (h : encOK v = true) (s : List Nat) :
    (encodeMessage v).bind (fun bs => decodeMessage (bs ++ s)) = .ok v :=
  encode_decode_suffix v h s

/-- Witness for C9 (amended): the map {"x": 1, "y": 2} decodes intact with
three trailing bytes appended. -/
theorem c9_prefix_decode_amended_witness :
    encOK (GoValue.vmap [(.vstring [120], .vint32 1), (.vstring [121], .vint32 2)]) = true ∧
    (encodeMessage (GoValue.vmap [(.vstring [120], .vint32 1), (.vstring [121], .vint32 2)])).bind
      (fun bs => decodeMessage (bs ++ [9, 9, 9])) =
      .ok (GoValue.vmap [(.vstring [120], .vint32 1), (.vstring [121], .vint32 2)]) :=
  ⟨by decide, c9_prefix_decode_amended
    (GoValue.vmap [(.vstring [120], .vint32 1), (.vstring [121], .vint32 2)])
    (by decide) [9, 9, 9]⟩

/-- Claim C10: every value a successful `DecodeMessage` call returns is
well-formed (`decodedWF`): at every nesting depth it belongs to the thirteen
supported variants with in-range scalars, and never to any other category. -/
theorem c10_decoded_values_supported (data : List Nat) (v : GoValue)
    (hok : bytesOK data = true) (h : decodeMessage data = .ok v) :
    decodedWF v = true := by
  have h2 : decodeResult (readValue data) = .ok v := h
  cases hr : readValue data with
  | error e =>
    rw [hr] at h2
    exact absurd h2 (by simp [decodeResult])
  | ok p =>
    obtain ⟨m, rest⟩ := p
    rw [hr] at h2
    have hm : m = v := by simpa [decodeResult] using h2
    subst hm
    have hr2 : readValueAligned (data.length + 1) data data.length = .ok (m, rest) := hr
    exact (readVA_wf (data.length + 1) data data.length m rest hok hr2).1

/-- Witness for C10: the concrete message [3, 5, 0, 0, 0] decodes to the
int32 5, which is well-formed. -/
theorem c10_decoded_values_supported_witness :
    bytesOK [3, 5, 0, 0, 0] = true ∧
    decodeMessage [3, 5, 0, 0, 0] = .ok (.vint32 5) ∧
    decodedWF (.vint32 5) = true :=
  ⟨by decide, rfl,
    c10_decoded_values_supported [3, 5, 0, 0, 0] (.vint32 5) (by decide) rfl⟩

/-- Witness for C7: encoding a 16-bit integer value (an unsupported
category) yields the type error naming it. -/
theorem c7_type_error_on_unsupported_witness :
    encodeMessage (.vother "int16") =
      .error (.typeError (("type " ++ "int16") ++ " is not supported by StandardMessageCodec")) :=
  c7_type_error_on_unsupported "int16"
